import Mathlib

/-!
Verification of the zstash chunked-archive core (`src/utils.py`, `zstash/create.py`).

The embedding models:
* the tar container as a byte stream (`TarSt`), with the external `tarfile`
  library's writes reduced to their observable effects: a 512-byte header
  block per entry (`BLOCKSIZE = tarfile.BLOCKSIZE`), raw content writes,
  NUL padding of each entry to a 512-byte boundary, and the end-of-archive
  trailer plus record padding written by `tar.close()` (`tarClose`);
* `hashlib.md5` (external) as the exact byte sequence fed to the hash
  object via `update`, which uniquely determines the real MD5 value;
* per-entry filesystem faults by an injected `FailMode` on each entry,
  reproducing where in `addfile` the corresponding Python exception is
  raised (`gettarinfo`/`os.stat`, `open`, or a mid-stream `read`);
* the sqlite index by the list of committed per-chunk transactions, and
  `hpss_put` (external) by a success predicate on chunk filenames.
-/

/-- Bytes are modelled as natural numbers (values 0..255 in practice). -/
abbrev Byte := Nat

instance : DecidableEq Byte := inferInstanceAs (DecidableEq Nat)

/-- `tarfile.BLOCKSIZE`: the tar block size, 512 bytes. -/
def BLOCKSIZE : Nat := 512

/-- `tarfile.RECORDSIZE`: tar record size, 20 blocks = 10240 bytes;
`tar.close()` pads the final archive to a multiple of this. -/
def RECORDSIZE : Nat := 10240

/-- Fuel-driven worker for `chunksOf` (structural recursion on the fuel,
so that the kernel can evaluate it; the fuel is always sufficient when
started at the list's length). -/
def chunksOfGo (bs : Nat) : Nat → List Byte → List (List Byte)
  | 0, _ => []
  | fuel + 1, l =>
    if l = [] ∨ bs = 0 then []
    else l.take bs :: chunksOfGo bs fuel (l.drop bs)

/-- Splitting a byte list into successive blocks of size `bs`, as the
`f.read(BLOCK_SIZE)` loop in `addfile` consumes a file.  For `bs = 0` we
return `[]` (the source loop would not terminate; `BLOCK_SIZE` is a
positive constant in `settings.py`, which is not part of the reviewed
sources). -/
def chunksOf (bs : Nat) (l : List Byte) : List (List Byte) :=
  chunksOfGo bs l.length l

/-- `hashlib.md5()` state: modelled as the byte sequence fed so far. -/
def md5Init : List Byte := []

/-- `hash_md5.update(s)`. -/
def md5Update (st s : List Byte) : List Byte := st ++ s

/-- `hash_md5.hexdigest()`: the digest is determined by (and modelled as)
the exact sequence of bytes fed to the hash object. -/
def md5Hexdigest (st : List Byte) : List Byte := st

/-- The 512-byte header block written by `tar.addfile(tarinfo)` (external
`tarfile` library).  Its contents encode entry metadata and are not
inspected by any reviewed code path, so they are modelled as NUL bytes;
only its length (one `BLOCKSIZE`) is load-bearing. -/
def mkHeader : List Byte := List.replicate BLOCKSIZE 0

/-- `tar.close()` (external `tarfile` library): append the end-of-archive
trailer (two NUL blocks) and pad the archive to a multiple of
`RECORDSIZE`. -/
def tarClose (d : List Byte) : List Byte :=
  let d1 := d ++ List.replicate (2 * BLOCKSIZE) 0
  d1 ++ List.replicate ((RECORDSIZE - d1.length % RECORDSIZE) % RECORDSIZE) 0

/-- Injected per-entry fault, locating where the Python exception caught by
the bare `except:` in `addfiles` is raised inside `addfile`:
* `statFail`: `tar.gettarinfo(file)` raises (e.g. the file vanished) —
  before anything is written;
* `openFail`: `open(file, "rb")` raises (e.g. permission denied) — after
  the header block was already written;
* `readFail j`: the `(j+1)`-st call to `f.read(BLOCK_SIZE)` raises — after
  the header and `j` full content blocks were written. -/
inductive FailMode
  | ok
  | statFail
  | openFail
  | readFail (j : Nat)
deriving DecidableEq

/-- Kind of filesystem entry: a regular file with its content bytes, or a
directory (whose `st_size`, as returned by `os.path.getsize`, is recorded
because `addfiles` uses it for the pre-archive size accounting). -/
inductive EKind
  | file (content : List Byte)
  | dir (statSize : Nat)
deriving DecidableEq

/-- One filesystem entry handed to `addfiles`: path, kind, mtime, and the
injected fault mode. -/
structure FsEntry where
  name : String
  kind : EKind
  mtime : Nat
  fail : FailMode
deriving DecidableEq

/-- `os.path.getsize` (line 42 of `utils.py`): `st_size`; for a regular
file this is the content length. -/
def FsEntry.statSize (e : FsEntry) : Nat :=
  match e.kind with
  | EKind.file c => c.length
  | EKind.dir s => s

/-- `tarinfo.size` as set by `tar.gettarinfo`: content length for a
regular file, `0` for a directory. -/
def FsEntry.recSize (e : FsEntry) : Nat :=
  match e.kind with
  | EKind.file c => c.length
  | EKind.dir _ => 0

/-- State of the open tar archive: the bytes written to `tar.fileobj` so
far, and the `tar.offset` field. -/
structure TarSt where
  data : List Byte
  offset : Nat
deriving DecidableEq

/-- Result tuple of `addfile`: `(offset, size, mtime, md5)`;
`none` models a raised exception. -/
abbrev AddRes := Option (Nat × Nat × Nat × Option (List Byte))

/-- The read/write/hash loop of `addfile` (lines 101-117 of `utils.py`)
running to completion: stream the content in `BLOCK_SIZE` blocks, feeding
each block to both `tar.fileobj.write` and `hash_md5.update`, then write
NUL padding to the next 512-byte boundary and advance `tar.offset` by the
padded content length. -/
def completeFile (bs : Nat) (tar1 : TarSt) (offset : Nat) (c : List Byte) (mt : Nat) :
    AddRes × TarSt :=
  let blocksIn := chunksOf bs c
  let data2 := blocksIn.foldl (fun d s => d ++ s) tar1.data
  let fed := blocksIn.foldl md5Update md5Init
  let blocks := c.length / BLOCKSIZE
  let remainder := c.length % BLOCKSIZE
  let pad := if remainder > 0 then BLOCKSIZE - remainder else 0
  let blocks1 := if remainder > 0 then blocks + 1 else blocks
  (some (offset, c.length, mt, some (md5Hexdigest fed)),
   ⟨data2 ++ List.replicate pad 0, tar1.offset + blocks1 * BLOCKSIZE⟩)

/-- `addfile(tar, file)` from `utils.py` (lines 96-122), with the injected
fault mode deciding where (if anywhere) an exception is raised.  Returns
the `(offset, size, mtime, md5)` tuple (or `none` for an exception) and
the tar state after the call; on an exception the tar state may already
have advanced (header block, partial content). -/
def addfile (bs : Nat) (tar : TarSt) (e : FsEntry) : AddRes × TarSt :=
  if e.fail = FailMode.statFail then
    (none, tar)
  else
    let offset := tar.offset
    let tar1 : TarSt := ⟨tar.data ++ mkHeader, tar.offset + BLOCKSIZE⟩
    match e.kind, e.fail with
    | EKind.dir _, _ =>
        -- not tarinfo.isfile(): no content stream, md5 is None, size 0
        (some (offset, 0, e.mtime, none), tar1)
    | EKind.file _, FailMode.openFail =>
        (none, tar1)
    | EKind.file c, FailMode.readFail j =>
        if j * bs ≤ c.length then
          -- the (j+1)-st read raises: j full blocks were written and hashed,
          -- and the manual `tar.offset +=` update was never reached
          (none, ⟨tar1.data ++ c.take (j * bs), tar1.offset⟩)
        else
          completeFile bs tar1 offset c e.mtime
    | EKind.file c, _ =>
        completeFile bs tar1 offset c e.mtime

/-- A row of the `files` table: `(name, size, mtime, md5, tar, offset)`. -/
structure FileRecord where
  name : String
  size : Nat
  mtime : Nat
  md5 : Option (List Byte)
  tar : String
  offset : Nat
deriving DecidableEq

/-- `archived.append((file[0], size, mtime, md5, tfname, offset))`. -/
def mkRecord (tname : String) (e : FsEntry) (r : Nat × Nat × Nat × Option (List Byte)) :
    FileRecord :=
  ⟨e.name, r.2.1, r.2.2.1, r.2.2.2, tname, r.1⟩

/-- Per-open-chunk loop state of `addfiles`: the chunk filename `tfname`,
the tar writer, the `archived` record list and the accumulated pre-archive
size `tarsize`. -/
structure OpenTar where
  tname : String
  tar : TarSt
  archived : List FileRecord
  tarsize : Nat
deriving DecidableEq

/-- Observable session state of one `addfiles` call: the per-chunk index
transactions committed so far (`cur.executemany` + `con.commit`), the
closed chunk files written to the local cache, the chunk filenames
successfully transferred by `hpss_put`, and the failure list. -/
structure Sess where
  commits : List (String × List FileRecord)
  cache : List (String × List Byte)
  transferred : List String
  failures : List String
deriving DecidableEq

/-- `"{0:0{1}x}".format(itar, 6)`: zero-padded 6-wide lowercase hex. -/
def hex6 (i : Int) : String :=
  let s := String.mk (Nat.toDigits 16 i.natAbs)
  if i < 0 then
    "-" ++ String.mk (List.replicate (5 - s.length) '0') ++ s
  else
    String.mk (List.replicate (6 - s.length) '0') ++ s

/-- A freshly opened chunk (`newtar` branch, lines 51-59 of `utils.py`). -/
def newOpen (itar : Int) : OpenTar :=
  ⟨hex6 itar ++ ".tar", ⟨[], 0⟩, [], 0⟩

/-- Lines 61-70 of `utils.py`: archive the current entry into the open
chunk; on success append its record and add its pre-measured size to
`tarsize`, on an exception append the path to the failure list. -/
def stepEntry (bs : Nat) (op : OpenTar) (st : Sess) (e : FsEntry) : OpenTar × Sess :=
  match addfile bs op.tar e with
  | (some r, tar') =>
      ({ op with tar := tar',
                 archived := op.archived ++ [mkRecord op.tname e r],
                 tarsize := op.tarsize + e.statSize }, st)
  | (none, tar') =>
      ({ op with tar := tar' }, { st with failures := st.failures ++ [e.name] })

/-- Lines 76-86 of `utils.py`: `tar.close()`, write the chunk file to the
cache, `hpss_put` it, and only on success insert-and-commit the chunk's
accumulated records as one transaction.  The `Bool` is `false` when
`hpss_put` raised (aborting the session). -/
def closeChunk (tOk : String → Bool) (op : OpenTar) (st : Sess) : Sess × Bool :=
  let d := tarClose op.tar.data
  let st1 := { st with cache := st.cache ++ [(op.tname, d)] }
  if tOk op.tname then
    ({ st1 with transferred := st1.transferred ++ [op.tname],
                commits := st1.commits ++ [(op.tname, op.archived)] }, true)
  else
    (st1, false)

/-- Line 74 of `utils.py`: `i == nfiles-1 or tarsize+files[i+1][1] >
config.maxsize` — close the open chunk if the entry just processed was the
last one, or the accumulated size plus the next entry's size exceeds the
maximum. -/
def closeAfter (maxsize tarsize : Nat) : List FsEntry → Bool
  | [] => true
  | e2 :: _ => tarsize + e2.statSize > maxsize

/-- The `for i in range(nfiles)` loop of `addfiles` (lines 48-91): open a
new chunk when needed, archive the entry, and close the chunk when
`closeAfter` says so; a failed transfer aborts the loop (the raised
exception propagates out of `addfiles`).  Returns the session state and
whether the loop completed (`false` = aborted). -/
def addfilesGo (bs maxsize : Nat) (tOk : String → Bool) :
    List FsEntry → Int → Option OpenTar → Sess → Sess × Bool
  | [], _, _, st => (st, true)
  | e :: rest, itar, ot, st =>
    let p : Int × OpenTar :=
      match ot with
      | none => (itar + 1, newOpen (itar + 1))
      | some op => (itar, op)
    let q := stepEntry bs p.2 st e
    if closeAfter maxsize q.1.tarsize rest then
      if (closeChunk tOk q.1 q.2).2 then
        addfilesGo bs maxsize tOk rest p.1 none (closeChunk tOk q.1 q.2).1
      else
        ((closeChunk tOk q.1 q.2).1, false)
    else
      addfilesGo bs maxsize tOk rest p.1 (some q.1) q.2

/-- `addfiles(cur, con, itar, files)` from `utils.py` (lines 39-91).
`bs` is `BLOCK_SIZE`, `maxsize` is `config.maxsize`, `tOk` tells whether
`hpss_put` succeeds for a given chunk filename.  (The size measurement of
line 42 is reflected in `FsEntry.statSize`; entries are handed over with
their sizes already measured.) -/
def addfiles (bs maxsize : Nat) (tOk : String → Bool) (itar : Int)
    (files : List FsEntry) : Sess × Bool :=
  addfilesGo bs maxsize tOk files itar none ⟨[], [], [], []⟩

/-- Whether `addfile` raises for this entry (the result tuple is absent).
This is independent of the tar state, so it is defined against the empty
tar. -/
def entryFails (bs : Nat) (e : FsEntry) : Bool :=
  ((addfile bs ⟨[], 0⟩ e).1).isNone

/-- Whether `addfile` on this entry leaves `tar.offset` out of sync with
the bytes actually written (which happens exactly when a read fault
strikes after at least one content block was written). -/
def entryDesyncs (bs : Nat) (e : FsEntry) : Bool :=
  (addfile bs ⟨[], 0⟩ e).2.data.length != (addfile bs ⟨[], 0⟩ e).2.offset

/-- The content bytes a `FileRecord` points to inside its chunk: `size`
bytes starting right after the 512-byte header block that begins at the
recorded `offset`. -/
def recordContent (d : List Byte) (r : FileRecord) : List Byte :=
  (d.drop (r.offset + BLOCKSIZE)).take r.size

/-- The md5 value `addfile` stores for an entry when it succeeds:
`None` for a directory, the digest of the streamed blocks for a file. -/
def entryMd5 (bs : Nat) (e : FsEntry) : Option (List Byte) :=
  match e.kind with
  | EKind.dir _ => none
  | EKind.file c => some (md5Hexdigest ((chunksOf bs c).foldl md5Update md5Init))

/-! ## Exclusion filter (`excludeFiles`, `utils.py` lines 13-36) -/

/-- `fnmatch.fnmatch` (Python standard library, external): glob matching
of a whole path against a pattern. `*` matches any character sequence
(including path separators), `?` any single character; other characters
match literally.  (Character classes `[...]` are not used by any reviewed
caller and are not modelled.) -/
def fnmatchGo : Nat → List Char → List Char → Bool
  | 0, _, _ => false
  | fuel + 1, s, pat =>
    match s, pat with
    | [], [] => true
    | [], p :: ps => p == '*' && fnmatchGo fuel [] ps
    | _ :: _, [] => false
    | c :: cs, p :: ps =>
      if p == '*' then fnmatchGo fuel (c :: cs) ps || fnmatchGo fuel cs (p :: ps)
      else if p == '?' then fnmatchGo fuel cs ps
      else c == p && fnmatchGo fuel cs ps

/-- `fnmatch(file, pattern)` on strings (each recursive step of the
matcher shortens the string or the pattern, so fuel
`s.length + pat.length + 1` always suffices). -/
def fnmatchB (s pat : String) : Bool :=
  fnmatchGo (s.data.length + pat.data.length + 1) s.data pat.data

/-- Splitting a character list at every occurrence of a separator
character — the semantics of Python's `str.split(sep)` for a one-character
separator (an empty string yields one empty field). -/
def splitChar (sep : Char) : List Char → List (List Char)
  | [] => [[]]
  | c :: cs =>
    match splitChar sep cs with
    | [] => [[]]
    | g :: gs => if c = sep then [] :: g :: gs else (c :: g) :: gs

/-- `exclude.split(',')` (line 18 of `utils.py`). -/
def splitPatterns (exclude : String) : List String :=
  (splitChar ',' exclude.data).map String.mk

/-- Lines 22-24 of `utils.py`: `exclude_patterns[i][-1] == "/"` — indexing
the last character raises `IndexError` on an empty pattern (modelled as
`none`); a pattern ending in `/` gets `*` appended. -/
def rewritePattern (p : String) : Option String :=
  match p.data.getLast? with
  | none => none
  | some c => some (if c = '/' then p ++ "*" else p)

/-- `excludeFiles(exclude, files)` from `utils.py` (lines 13-36):
split the pattern string on commas, rewrite trailing-`/` patterns, collect
the candidates matching any pattern, and return the candidates with those
removed.  `none` models a raised `IndexError`. -/
def excludeFiles (exclude : String) (files : List String) : Option (List String) :=
  match (splitPatterns exclude).mapM rewritePattern with
  | none => none
  | some pats =>
      let excludeList := files.filter (fun f => pats.any (fun pa => fnmatchB f pa))
      some (files.filter (fun f => !excludeList.contains f))

/-! ## File enumeration (`create.py` lines 164-188) -/

/-- `os.path.flatten(a, b)` for two components (POSIX, external library). -/
def pathJoin (a b : String) : String :=
  if b.data.head? = some '/' then b
  else if a = "" ∨ a.data.getLast? = some '/' then a ++ b
  else a ++ "/" ++ b

/-- Component loop of `posixpath.normpath` (external library). -/
def normpathComps (initialSlashes : Nat) : List String → List String → List String
  | acc, [] => acc
  | acc, c :: rest =>
    if c = "" ∨ c = "." then
      normpathComps initialSlashes acc rest
    else if c ≠ ".." ∨ (initialSlashes = 0 ∧ acc = []) ∨ acc.getLast? = some ".." then
      normpathComps initialSlashes (acc ++ [c]) rest
    else if acc ≠ [] then
      normpathComps initialSlashes acc.dropLast rest
    else
      normpathComps initialSlashes acc rest

/-- `os.path.normpath` (POSIX, external library). -/
def normpath (p : String) : String :=
  if p = "" then "."
  else
    let initialSlashes : Nat :=
      if p.data.head? = some '/' then
        if p.data.take 2 = ['/', '/'] ∧ p.data.take 3 ≠ ['/', '/', '/'] then 2
        else 1
      else 0
    let comps := normpathComps initialSlashes []
      ((splitChar '/' p.data).map String.mk)
    let joined := String.mk (List.intercalate ['/'] (comps.map String.data))
    let res := String.mk (List.replicate initialSlashes '/') ++ joined
    if res = "" then "." else res

/-- Lines 166-173 of `create.py`: from the `os.walk` output (a list of
`(root, dirnames, filenames)` triples) build the raw entry list — one
`(root, "")` placeholder per empty directory, one `(root, filename)` pair
per file. -/
def gatherFiles (walk : List (String × List String × List String)) :
    List (String × String) :=
  walk.flatMap (fun t =>
    (if t.2.1 = [] ∧ t.2.2 = [] then [(t.1, "")] else []) ++
      t.2.2.map (fun fn => (t.1, fn)))

/-- Lexicographic comparison of character lists — how Python compares two
strings (by code points). -/
def charListLt : List Char → List Char → Bool
  | [], [] => false
  | [], _ :: _ => true
  | _ :: _, [] => false
  | a :: as, b :: bs =>
    if a < b then true
    else if b < a then false
    else charListLt as bs

/-- The sort key comparison of line 176 of `create.py`: Python tuple
comparison of the `(directory, filename)` key — lexicographic on the
first component, then on the second. -/
def pairLe (a b : String × String) : Prop :=
  (charListLt a.1.data b.1.data ||
    (a.1 == b.1 && (charListLt a.2.data b.2.data || a.2 == b.2))) = true

instance : DecidableRel pairLe := fun a b =>
  inferInstanceAs (Decidable (_ = true))

/-- `sorted(files, key=lambda x: (x[0], x[1]))` (line 176 of `create.py`):
a comparison sort by the `(directory, filename)` key. -/
def sortFiles (l : List (String × String)) : List (String × String) :=
  List.insertionSort pairLe l

/-- Lines 164-184 of `create.py`: gather, sort, drop the local cache
directory, and normalize each entry to a relative path. -/
def createFileList (cacheName : String)
    (walk : List (String × List String × List String)) : List String :=
  ((sortFiles (gatherFiles walk)).filter
      (fun x => x.1 ≠ pathJoin "." cacheName)).map
    (fun x => normpath (pathJoin x.1 x.2))

/-! ## Specification-side chunking rule -/

/-- Modelled from the spec's words (§4.3 step 5): close the open chunk
exactly when the entry just processed was the last entry overall, or when
the accumulated size plus the next entry's size exceeds the configured
maximum. -/
def specCloseAfter (maxsize acc : Nat) : List FsEntry → Bool
  | [] => true
  | e2 :: _ => acc + e2.statSize > maxsize

/-- Modelled from the spec's words (§4.3 step 5): `specChunksGo maxsize
cur acc rest` carries the entries accumulated in the open chunk and their
accumulated pre-archive size, and emits a chunk whenever the close
decision fires. -/
def specChunksGo (maxsize : Nat) (cur : List FsEntry) (acc : Nat) :
    List FsEntry → List (List FsEntry)
  | [] => []
  | e :: rest =>
    if specCloseAfter maxsize (acc + e.statSize) rest then
      (cur ++ [e]) :: specChunksGo maxsize [] 0 rest
    else
      specChunksGo maxsize (cur ++ [e]) (acc + e.statSize) rest

/-- Modelled from the spec's words: the partition of the entry list into
chunks dictated by the lookahead close rule. -/
def specChunks (maxsize : Nat) (files : List FsEntry) : List (List FsEntry) :=
  specChunksGo maxsize [] 0 files

/-- The bytes `addfile` appends to the chunk for an entry (independent of
the prior tar state). -/
def entryWrites (bs : Nat) (e : FsEntry) : List Byte :=
  (addfile bs ⟨[], 0⟩ e).2.data

/-- The amount `addfile` advances `tar.offset` for an entry (independent
of the prior tar state). -/
def entryAdvance (bs : Nat) (e : FsEntry) : Nat :=
  (addfile bs ⟨[], 0⟩ e).2.offset

/-- `(name, size, mtime, md5)` of a committed record (the fields of a
record that do not depend on the position inside the chunk). -/
def recordQuad (r : FileRecord) : String × Nat × Nat × Option (List Byte) :=
  (r.name, r.size, r.mtime, r.md5)

/-- The `(name, size, mtime, md5)` data `addfile` produces for an entry
that archives successfully. -/
def entryQuad (bs : Nat) (e : FsEntry) : String × Nat × Nat × Option (List Byte) :=
  (e.name, e.recSize, e.mtime, entryMd5 bs e)

/-- Records pending in the (possibly absent) open chunk. -/
def otCur : Option OpenTar → List FileRecord
  | none => []
  | some op => op.archived

/-- Accumulated pre-archive size of the (possibly absent) open chunk. -/
def otSize : Option OpenTar → Nat
  | none => 0
  | some op => op.tarsize

/-- Invariant on the observable session state while the loop runs: the
committed transactions, cache files and transferred chunks line up
one-for-one and in order, every transferred chunk's `hpss_put` succeeded,
every cache file is a closed (`tar.close()`-finalized) archive, and every
committed record names its owning chunk. -/
def SessInv (tOk : String → Bool) (st : Sess) : Prop :=
  st.commits.map Prod.fst = st.transferred ∧
  st.cache.map Prod.fst = st.transferred ∧
  (∀ t ∈ st.transferred, tOk t = true) ∧
  (∀ c ∈ st.cache, ∃ d, c.2 = tarClose d) ∧
  (∀ p ∈ st.commits, ∀ r ∈ p.2, r.tar = p.1)

/-- Records accumulated for the open chunk carry its filename. -/
def OpInv (op : OpenTar) : Prop :=
  ∀ r ∈ op.archived, r.tar = op.tname

/-- What holds of the state `addfiles` returns, in both the normal and the
aborted case. -/
def SessFinal (tOk : String → Bool) (stb : Sess × Bool) : Prop :=
  stb.1.commits.map Prod.fst = stb.1.transferred ∧
  (∀ t ∈ stb.1.transferred, tOk t = true) ∧
  (∀ c ∈ stb.1.cache, ∃ d, c.2 = tarClose d) ∧
  (∀ p ∈ stb.1.commits, ∀ r ∈ p.2, r.tar = p.1) ∧
  (stb.2 = true → stb.1.cache.map Prod.fst = stb.1.transferred) ∧
  (stb.2 = false →
    ∃ t, tOk t = false ∧ stb.1.cache.map Prod.fst = stb.1.transferred ++ [t])

/-- The digest/offset contract of a set of records against the bytes of
their chunk: every record holding a digest records exactly the length of
the digested bytes, points inside the chunk, and the chunk bytes at
`(offset + header, size)` are exactly the digested bytes. -/
def RecordsOk (d : List Byte) (recs : List FileRecord) : Prop :=
  ∀ r ∈ recs, ∀ dg, r.md5 = some dg →
    r.size = dg.length ∧
    r.offset + BLOCKSIZE + r.size ≤ d.length ∧
    recordContent d r = dg

/-! ## Helper lemmas about `addfile` -/

theorem foldl_append_flatten (L : List (List Byte)) (init : List Byte) :
    L.foldl (fun d s => d ++ s) init = init ++ L.flatten := by
  induction L generalizing init with
  | nil => simp
  | cons x xs ih => simp [List.foldl_cons, ih]

theorem chunksOfGo_irrel (bs : Nat) :
    ∀ (f1 f2 : Nat) (l : List Byte), l.length ≤ f1 → l.length ≤ f2 →
      chunksOfGo bs f1 l = chunksOfGo bs f2 l := by
  intro f1
  induction f1 with
  | zero =>
      intro f2 l h1 h2
      have hl : l = [] := by
        cases l with
        | nil => rfl
        | cons a as => simp at h1
      subst hl
      cases f2 <;> simp [chunksOfGo]
  | succ k ih =>
      intro f2 l h1 h2
      cases f2 with
      | zero =>
          have hl : l = [] := by
            cases l with
            | nil => rfl
            | cons a as => simp at h2
          subst hl
          simp [chunksOfGo]
      | succ m =>
          by_cases hc : l = [] ∨ bs = 0
          · simp [chunksOfGo, hc]
          · simp only [chunksOfGo, if_neg hc]
            push_neg at hc
            have hbs : 0 < bs := Nat.pos_of_ne_zero hc.2
            have hl : 0 < l.length := List.length_pos.mpr hc.1
            have hd1 : (l.drop bs).length ≤ k := by
              simp [List.length_drop]
              omega
            have hd2 : (l.drop bs).length ≤ m := by
              simp [List.length_drop]
              omega
            rw [ih m (l.drop bs) hd1 hd2]

theorem chunksOf_eq (bs : Nat) (l : List Byte) :
    chunksOf bs l =
      if l = [] ∨ bs = 0 then []
      else l.take bs :: chunksOf bs (l.drop bs) := by
  cases l with
  | nil => simp [chunksOf, chunksOfGo]
  | cons a as =>
      by_cases hbs : bs = 0
      · simp [chunksOf, chunksOfGo, hbs]
      · have hne : ¬((a :: as) = [] ∨ bs = 0) := by simp [hbs]
        rw [if_neg hne]
        unfold chunksOf
        simp only [List.length_cons, chunksOfGo, if_neg hne]
        congr 1
        apply chunksOfGo_irrel
        · simp [List.length_drop]
          omega
        · simp

theorem chunksOf_flatten (bs : Nat) (hbs : 0 < bs) (l : List Byte) :
    (chunksOf bs l).flatten = l := by
  by_cases h : l = []
  · simp [chunksOf, h, chunksOfGo]
  · have hcond : ¬(l = [] ∨ bs = 0) := by
      push_neg
      exact ⟨h, by omega⟩
    rw [chunksOf_eq, if_neg hcond]
    simp only [List.flatten_cons]
    rw [chunksOf_flatten bs hbs (List.drop bs l)]
    exact List.take_append_drop bs l
termination_by l.length
decreasing_by
  have := List.length_pos.mpr h
  simp [List.length_drop]
  omega

theorem md5_fed_eq (bs : Nat) (hbs : 0 < bs) (c : List Byte) :
    (chunksOf bs c).foldl md5Update md5Init = c := by
  have : (chunksOf bs c).foldl md5Update md5Init = md5Init ++ (chunksOf bs c).flatten := by
    simpa [md5Update] using foldl_append_flatten (chunksOf bs c) md5Init
  rw [this, chunksOf_flatten bs hbs c]
  simp [md5Init]

theorem addfile_fst (bs : Nat) (t : TarSt) (e : FsEntry) :
    (addfile bs t e).1 =
      if entryFails bs e then none
      else some (t.offset, e.recSize, e.mtime, entryMd5 bs e) := by
  obtain ⟨name, kind, mtime, fail⟩ := e
  cases fail <;> cases kind <;>
    simp [addfile, entryFails, completeFile, FsEntry.recSize, entryMd5,
      md5Hexdigest] <;>
    split <;> simp

theorem entryFails_of_ok (bs : Nat) (e : FsEntry) (h : e.fail = FailMode.ok) :
    entryFails bs e = false := by
  obtain ⟨name, kind, mtime, fail⟩ := e
  cases kind <;> simp_all [entryFails, addfile, completeFile]

theorem addfile_fst_some (bs : Nat) (t : TarSt) (e : FsEntry)
    (r : Nat × Nat × Nat × Option (List Byte))
    (h : (addfile bs t e).1 = some r) :
    r = (t.offset, e.recSize, e.mtime, entryMd5 bs e) := by
  rw [addfile_fst] at h
  split at h
  · cases h
  · injection h with h2
    exact h2.symm

theorem addfile_data (bs : Nat) (t : TarSt) (e : FsEntry) :
    (addfile bs t e).2.data = t.data ++ entryWrites bs e := by
  obtain ⟨name, kind, mtime, fail⟩ := e
  cases fail with
  | ok =>
      cases kind <;>
        simp [addfile, entryWrites, completeFile, foldl_append_flatten]
  | statFail => simp [addfile, entryWrites]
  | openFail =>
      cases kind <;>
        simp [addfile, entryWrites, completeFile, foldl_append_flatten]
  | readFail j =>
      cases kind with
      | dir s => simp [addfile, entryWrites]
      | file c =>
          by_cases hj : j * bs ≤ c.length <;>
            simp [addfile, entryWrites, completeFile, foldl_append_flatten, hj]

theorem addfile_offset (bs : Nat) (t : TarSt) (e : FsEntry) :
    (addfile bs t e).2.offset = t.offset + entryAdvance bs e := by
  obtain ⟨name, kind, mtime, fail⟩ := e
  cases fail with
  | ok =>
      cases kind <;>
        simp [addfile, entryAdvance, completeFile] <;> omega
  | statFail => simp [addfile, entryAdvance]
  | openFail =>
      cases kind <;>
        simp [addfile, entryAdvance, completeFile] <;> omega
  | readFail j =>
      cases kind with
      | dir s => simp [addfile, entryAdvance]
      | file c =>
          by_cases hj : j * bs ≤ c.length <;>
            simp [addfile, entryAdvance, completeFile, hj] <;> omega

theorem entryDesyncs_iff (bs : Nat) (e : FsEntry) :
    entryDesyncs bs e = false ↔
      (entryWrites bs e).length = entryAdvance bs e := by
  simp [entryDesyncs, entryWrites, entryAdvance, bne_eq_false_iff_eq]

/-! ## Session invariant of the `addfiles` loop -/

theorem stepEntry_snd_commits (bs : Nat) (op : OpenTar) (st : Sess) (e : FsEntry) :
    (stepEntry bs op st e).2.commits = st.commits := by
  unfold stepEntry
  rcases h : addfile bs op.tar e with ⟨r, t'⟩
  cases r <;> simp

theorem stepEntry_snd_cache (bs : Nat) (op : OpenTar) (st : Sess) (e : FsEntry) :
    (stepEntry bs op st e).2.cache = st.cache := by
  unfold stepEntry
  rcases h : addfile bs op.tar e with ⟨r, t'⟩
  cases r <;> simp

theorem stepEntry_snd_transferred (bs : Nat) (op : OpenTar) (st : Sess) (e : FsEntry) :
    (stepEntry bs op st e).2.transferred = st.transferred := by
  unfold stepEntry
  rcases h : addfile bs op.tar e with ⟨r, t'⟩
  cases r <;> simp

theorem stepEntry_fst_tname (bs : Nat) (op : OpenTar) (st : Sess) (e : FsEntry) :
    (stepEntry bs op st e).1.tname = op.tname := by
  unfold stepEntry
  rcases h : addfile bs op.tar e with ⟨r, t'⟩
  cases r <;> simp

theorem stepEntry_sessInv (bs : Nat) (tOk : String → Bool) (op : OpenTar)
    (st : Sess) (e : FsEntry) (h : SessInv tOk st) :
    SessInv tOk (stepEntry bs op st e).2 := by
  unfold SessInv at *
  rw [stepEntry_snd_commits, stepEntry_snd_cache, stepEntry_snd_transferred]
  exact h

theorem stepEntry_opInv (bs : Nat) (op : OpenTar) (st : Sess) (e : FsEntry)
    (h : OpInv op) : OpInv (stepEntry bs op st e).1 := by
  unfold OpInv stepEntry at *
  rcases haf : addfile bs op.tar e with ⟨r, t'⟩
  cases r with
  | none => simpa using h
  | some v =>
      simp only
      intro r hr
      simp only [List.mem_append, List.mem_singleton] at hr
      rcases hr with hr | hr
      · exact h r hr
      · subst hr; rfl

theorem closeChunk_true (tOk : String → Bool) (op : OpenTar) (st : Sess)
    (h : tOk op.tname = true) :
    closeChunk tOk op st =
      ({ commits := st.commits ++ [(op.tname, op.archived)],
         cache := st.cache ++ [(op.tname, tarClose op.tar.data)],
         transferred := st.transferred ++ [op.tname],
         failures := st.failures }, true) := by
  simp [closeChunk, h]

theorem closeChunk_false (tOk : String → Bool) (op : OpenTar) (st : Sess)
    (h : tOk op.tname = false) :
    closeChunk tOk op st =
      ({ commits := st.commits,
         cache := st.cache ++ [(op.tname, tarClose op.tar.data)],
         transferred := st.transferred,
         failures := st.failures }, false) := by
  simp [closeChunk, h]

theorem closeChunk_sessInv (tOk : String → Bool) (op : OpenTar) (st : Sess)
    (h : SessInv tOk st) (hop : OpInv op) (htk : tOk op.tname = true) :
    SessInv tOk (closeChunk tOk op st).1 := by
  obtain ⟨h1, h2, h3, h4, h5⟩ := h
  rw [closeChunk_true tOk op st htk]
  refine ⟨?_, ?_, ?_, ?_, ?_⟩
  · simp [h1]
  · simp [h2]
  · intro t ht
    simp only [List.mem_append, List.mem_singleton] at ht
    rcases ht with ht | ht
    · exact h3 t ht
    · subst ht; exact htk
  · intro c hc
    simp only [List.mem_append, List.mem_singleton] at hc
    rcases hc with hc | hc
    · exact h4 c hc
    · subst hc; exact ⟨op.tar.data, rfl⟩
  · intro p hp
    simp only [List.mem_append, List.mem_singleton] at hp
    rcases hp with hp | hp
    · exact h5 p hp
    · subst hp; exact hop

theorem sessInv_final (tOk : String → Bool) (st : Sess) (h : SessInv tOk st) :
    SessFinal tOk (st, true) := by
  obtain ⟨h1, h2, h3, h4, h5⟩ := h
  exact ⟨h1, h3, h4, h5, fun _ => h2, by simp⟩

theorem closeChunk_final (tOk : String → Bool) (op : OpenTar) (st : Sess)
    (h : SessInv tOk st) (hop : OpInv op) :
    SessFinal tOk (closeChunk tOk op st) := by
  by_cases htk : tOk op.tname = true
  · have hinv := closeChunk_sessInv tOk op st h hop htk
    rw [closeChunk_true tOk op st htk] at hinv ⊢
    exact sessInv_final tOk _ hinv
  · have htk' : tOk op.tname = false := by
      simpa using htk
    obtain ⟨h1, h2, h3, h4, h5⟩ := h
    rw [closeChunk_false tOk op st htk']
    refine ⟨h1, h3, ?_, h5, by simp, ?_⟩
    · intro c hc
      simp only [List.mem_append, List.mem_singleton] at hc
      rcases hc with hc | hc
      · exact h4 c hc
      · subst hc; exact ⟨op.tar.data, rfl⟩
    · intro _
      exact ⟨op.tname, htk', by simp [h2]⟩

/-- Main loop invariant: from any state satisfying `SessInv` (and any open
chunk satisfying `OpInv`), the loop returns a state satisfying
`SessFinal`. -/
theorem addfilesGo_final (bs maxsize : Nat) (tOk : String → Bool) :
    ∀ (files : List FsEntry) (itar : Int) (ot : Option OpenTar) (st : Sess),
      SessInv tOk st → (∀ op, ot = some op → OpInv op) →
      SessFinal tOk (addfilesGo bs maxsize tOk files itar ot st) := by
  intro files
  induction files with
  | nil =>
      intro itar ot st hst _
      exact sessInv_final tOk st hst
  | cons e rest ih =>
      intro itar ot st hst hot
      have main : ∀ (it2 : Int) (op0 : OpenTar), OpInv op0 →
          SessFinal tOk
            (if closeAfter maxsize (stepEntry bs op0 st e).1.tarsize rest then
               if (closeChunk tOk (stepEntry bs op0 st e).1 (stepEntry bs op0 st e).2).2 then
                 addfilesGo bs maxsize tOk rest it2 none
                   (closeChunk tOk (stepEntry bs op0 st e).1 (stepEntry bs op0 st e).2).1
               else
                 ((closeChunk tOk (stepEntry bs op0 st e).1 (stepEntry bs op0 st e).2).1,
                   false)
             else
               addfilesGo bs maxsize tOk rest it2 (some (stepEntry bs op0 st e).1)
                 (stepEntry bs op0 st e).2) := by
        intro it2 op0 hop0
        have hq2 : SessInv tOk (stepEntry bs op0 st e).2 :=
          stepEntry_sessInv bs tOk op0 st e hst
        have hq1 : OpInv (stepEntry bs op0 st e).1 :=
          stepEntry_opInv bs op0 st e hop0
        by_cases hcl : closeAfter maxsize (stepEntry bs op0 st e).1.tarsize rest = true
        · rw [if_pos hcl]
          by_cases htk : tOk (stepEntry bs op0 st e).1.tname = true
          · have hinv := closeChunk_sessInv tOk _ _ hq2 hq1 htk
            rw [closeChunk_true tOk _ _ htk] at hinv ⊢
            simp only [if_true]
            exact ih it2 none _ hinv (fun op h => by cases h)
          · have htk' : tOk (stepEntry bs op0 st e).1.tname = false := by
              simpa using htk
            have hfin := closeChunk_final tOk _ _ hq2 hq1
            rw [closeChunk_false tOk _ _ htk'] at hfin ⊢
            simpa using hfin
        · rw [if_neg hcl]
          exact ih it2 (some _) _ hq2 (fun op h => by cases h; exact hq1)
      cases ot with
      | none =>
          simp only [addfilesGo]
          exact main (itar + 1) (newOpen (itar + 1))
            (fun r hr => by simp [newOpen] at hr)
      | some op =>
          simp only [addfilesGo]
          exact main itar op (hot op rfl)

/-! ## All-success runs: grouping by the chunking rule -/

theorem closeAfter_eq_spec (maxsize a : Nat) (l : List FsEntry) :
    closeAfter maxsize a l = specCloseAfter maxsize a l := by
  cases l <;> rfl

theorem stepEntry_ok (bs : Nat) (op : OpenTar) (st : Sess) (e : FsEntry)
    (h : e.fail = FailMode.ok) :
    stepEntry bs op st e =
      ({ op with
          tar := (addfile bs op.tar e).2,
          archived := op.archived ++
            [mkRecord op.tname e (op.tar.offset, e.recSize, e.mtime, entryMd5 bs e)],
          tarsize := op.tarsize + e.statSize }, st) := by
  have hfst : (addfile bs op.tar e).1 =
      some (op.tar.offset, e.recSize, e.mtime, entryMd5 bs e) := by
    rw [addfile_fst, entryFails_of_ok bs e h]
    simp
  unfold stepEntry
  rcases haf : addfile bs op.tar e with ⟨r, t'⟩
  rw [haf] at hfst
  simp only at hfst
  subst hfst
  simp

theorem specChunksGo_flatten (maxsize : Nat) :
    ∀ (l cur : List FsEntry) (acc : Nat),
      (specChunksGo maxsize cur acc l).flatten =
        if l = [] then [] else cur ++ l := by
  intro l
  induction l with
  | nil => intro cur acc; simp [specChunksGo]
  | cons e rest ih =>
      intro cur acc
      rw [specChunksGo]
      by_cases hcl : specCloseAfter maxsize (acc + e.statSize) rest = true
      · rw [if_pos hcl]
        simp only [List.flatten_cons, ih [] 0]
        cases rest with
        | nil => simp
        | cons e2 r2 => simp
      · rw [if_neg hcl]
        have hne : rest ≠ [] := by
          intro hrest
          subst hrest
          simp [specCloseAfter] at hcl
        rw [ih (cur ++ [e]) (acc + e.statSize), if_neg hne]
        simp

/-- The flattening of the spec-side chunk partition returns the input:
every entry is assigned to exactly one chunk, and none is split. -/
theorem specChunks_flatten (maxsize : Nat) (l : List FsEntry) :
    (specChunks maxsize l).flatten = l := by
  unfold specChunks
  rw [specChunksGo_flatten]
  by_cases h : l = [] <;> simp [h]

/-- In an all-success run with all transfers succeeding, the committed
transactions group the produced records exactly as the spec-side chunking
rule groups the input entries. -/
theorem addfilesGo_groups (bs maxsize : Nat) (tOk : String → Bool)
    (htOk : ∀ t, tOk t = true) :
    ∀ (files : List FsEntry) (itar : Int) (ot : Option OpenTar) (st : Sess)
      (cur : List FsEntry),
      (∀ e ∈ files, e.fail = FailMode.ok) →
      (otCur ot).map recordQuad = cur.map (entryQuad bs) →
      (addfilesGo bs maxsize tOk files itar ot st).1.commits.map
          (fun p => p.2.map recordQuad) =
        st.commits.map (fun p => p.2.map recordQuad) ++
          (specChunksGo maxsize cur (otSize ot) files).map
            (fun g => g.map (entryQuad bs)) := by
  intro files
  induction files with
  | nil =>
      intro itar ot st cur hok hcur
      simp [addfilesGo, specChunksGo]
  | cons e rest ih =>
      intro itar ot st cur hok hcur
      have hek : e.fail = FailMode.ok := hok e (by simp)
      have hrest : ∀ e' ∈ rest, e'.fail = FailMode.ok :=
        fun e' he' => hok e' (by simp [he'])
      have main : ∀ (it2 : Int) (op0 : OpenTar),
          op0.archived.map recordQuad = cur.map (entryQuad bs) →
          ((if closeAfter maxsize (stepEntry bs op0 st e).1.tarsize rest then
             if (closeChunk tOk (stepEntry bs op0 st e).1 (stepEntry bs op0 st e).2).2 then
               addfilesGo bs maxsize tOk rest it2 none
                 (closeChunk tOk (stepEntry bs op0 st e).1 (stepEntry bs op0 st e).2).1
             else
               ((closeChunk tOk (stepEntry bs op0 st e).1 (stepEntry bs op0 st e).2).1,
                 false)
           else
             addfilesGo bs maxsize tOk rest it2 (some (stepEntry bs op0 st e).1)
               (stepEntry bs op0 st e).2)).1.commits.map (fun p => p.2.map recordQuad) =
            st.commits.map (fun p => p.2.map recordQuad) ++
              (specChunksGo maxsize cur op0.tarsize (e :: rest)).map
                (fun g => g.map (entryQuad bs)) := by
        intro it2 op0 harch
        have hstep := stepEntry_ok bs op0 st e hek
        have hts : (stepEntry bs op0 st e).1.tarsize = op0.tarsize + e.statSize := by
          rw [hstep]
        have harch2 : (stepEntry bs op0 st e).1.archived =
            op0.archived ++ [mkRecord op0.tname e
              (op0.tar.offset, e.recSize, e.mtime, entryMd5 bs e)] := by
          rw [hstep]
        have hsnd : (stepEntry bs op0 st e).2 = st := by rw [hstep]
        have htk : tOk (stepEntry bs op0 st e).1.tname = true := htOk _
        rw [specChunksGo]
        rw [hts, closeAfter_eq_spec]
        by_cases hcl :
            specCloseAfter maxsize (op0.tarsize + e.statSize) rest = true
        · rw [if_pos hcl, if_pos hcl]
          rw [closeChunk_true tOk _ _ htk]
          simp only [if_true]
          rw [ih it2 none _ [] hrest (by simp [otCur])]
          simp only [otSize]
          rw [hsnd, harch2]
          simp [harch, mkRecord, recordQuad, entryQuad]
        · rw [if_neg hcl, if_neg hcl]
          rw [ih it2 (some _) _ (cur ++ [e]) hrest
            (by simp [otCur, harch2, harch, mkRecord, recordQuad, entryQuad])]
          simp [otSize, hts, hsnd]
      cases ot with
      | none =>
          simp only [addfilesGo]
          simp only [otCur, List.map_nil] at hcur
          have harch : (newOpen (itar + 1)).archived.map recordQuad =
              cur.map (entryQuad bs) := by
            simpa [newOpen] using hcur
          have := main (itar + 1) (newOpen (itar + 1)) harch
          simpa [newOpen, otSize] using this
      | some op =>
          simp only [addfilesGo]
          simp only [otCur] at hcur
          have := main itar op hcur
          simpa [otSize] using this

/-! ## Claim C1 -/

/-- **C1**: For every session, a FileRecord is committed to the index iff
its owning chunk was fully written, closed, and successfully transferred:
the committed transactions are exactly (and in order) those of the
transferred chunks, every transferred chunk's `hpss_put` succeeded, every
chunk file in the cache is `tar.close()`-finalized, every committed record
names its owning chunk, and when the run aborts the failing chunk is
closed in the cache but has no transfer and no committed transaction,
while all previously transferred chunks keep theirs. -/
theorem addfiles_commit_iff_transfer (bs maxsize : Nat) (tOk : String → Bool)
    (itar : Int) (files : List FsEntry) :
    ((addfiles bs maxsize tOk itar files).1.commits.map Prod.fst =
        (addfiles bs maxsize tOk itar files).1.transferred) ∧
    (∀ t ∈ (addfiles bs maxsize tOk itar files).1.transferred, tOk t = true) ∧
    (∀ c ∈ (addfiles bs maxsize tOk itar files).1.cache, ∃ d, c.2 = tarClose d) ∧
    (∀ p ∈ (addfiles bs maxsize tOk itar files).1.commits, ∀ r ∈ p.2, r.tar = p.1) ∧
    ((addfiles bs maxsize tOk itar files).2 = true →
      (addfiles bs maxsize tOk itar files).1.cache.map Prod.fst =
        (addfiles bs maxsize tOk itar files).1.transferred) ∧
    ((addfiles bs maxsize tOk itar files).2 = false →
      ∃ t, tOk t = false ∧
        (addfiles bs maxsize tOk itar files).1.cache.map Prod.fst =
          (addfiles bs maxsize tOk itar files).1.transferred ++ [t]) := by
  have h := addfilesGo_final bs maxsize tOk files itar none ⟨[], [], [], []⟩
    ⟨rfl, rfl, by simp, by simp, by simp⟩ (fun op hop => by cases hop)
  exact h

/-- Witness for C1 at a concrete aborting run: three one-chunk-per-file
entries with the second transfer failing — the aborted chunk is closed in
the cache but untransferred and uncommitted, while chunk 0 stays
committed. -/
theorem addfiles_commit_iff_transfer_witness :
    (∃ t, (fun s => s != "000001.tar") t = false ∧
      (addfiles 4 3 (fun s => s != "000001.tar") (-1)
        [⟨"a", EKind.file [1, 2, 3], 5, FailMode.ok⟩,
         ⟨"b", EKind.file [7], 6, FailMode.ok⟩,
         ⟨"c", EKind.file [8], 2, FailMode.ok⟩]).1.cache.map Prod.fst =
      (addfiles 4 3 (fun s => s != "000001.tar") (-1)
        [⟨"a", EKind.file [1, 2, 3], 5, FailMode.ok⟩,
         ⟨"b", EKind.file [7], 6, FailMode.ok⟩,
         ⟨"c", EKind.file [8], 2, FailMode.ok⟩]).1.transferred ++ [t]) ∧
    (addfiles 4 3 (fun s => s != "000001.tar") (-1)
        [⟨"a", EKind.file [1, 2, 3], 5, FailMode.ok⟩,
         ⟨"b", EKind.file [7], 6, FailMode.ok⟩,
         ⟨"c", EKind.file [8], 2, FailMode.ok⟩]).2 = false ∧
    (addfiles 4 3 (fun s => s != "000001.tar") (-1)
        [⟨"a", EKind.file [1, 2, 3], 5, FailMode.ok⟩,
         ⟨"b", EKind.file [7], 6, FailMode.ok⟩,
         ⟨"c", EKind.file [8], 2, FailMode.ok⟩]).1.commits.map Prod.fst =
      ["000000.tar"] :=
  ⟨((addfiles_commit_iff_transfer 4 3 (fun s => s != "000001.tar") (-1)
      [⟨"a", EKind.file [1, 2, 3], 5, FailMode.ok⟩,
       ⟨"b", EKind.file [7], 6, FailMode.ok⟩,
       ⟨"c", EKind.file [8], 2, FailMode.ok⟩]).2.2.2.2.2) (by decide),
   by decide, by decide⟩

/-! ## Claim C2 -/

/-- **C2**: in runs where every entry archives successfully and every
transfer succeeds, the chunk boundaries chosen by `addfiles` are exactly
those of the specification's lookahead rule (close exactly when the entry
is the last overall or the accumulated size plus the next entry's size
exceeds the maximum): the committed transactions group the produced
records precisely as `specChunks` groups the entries; and no entry is ever
split across chunks (each entry lands in exactly one chunk of the
partition). -/
theorem addfiles_chunk_boundaries (bs maxsize : Nat) (tOk : String → Bool)
    (itar : Int) (files : List FsEntry)
    (hok : ∀ e ∈ files, e.fail = FailMode.ok)
    (htOk : ∀ t, tOk t = true) :
    ((addfiles bs maxsize tOk itar files).1.commits.map
        (fun p => p.2.map recordQuad) =
      (specChunks maxsize files).map (fun g => g.map (entryQuad bs))) ∧
    (specChunks maxsize files).flatten = files := by
  constructor
  · have h := addfilesGo_groups bs maxsize tOk htOk files itar none
      ⟨[], [], [], []⟩ [] hok (by simp [otCur])
    simpa [specChunks, otSize] using h
  · exact specChunks_flatten maxsize files

/-- Witness for C2: the spec scenario — maximum 10 MiB, entries of
6 MiB, 6 MiB and 1 MiB; chunk 0 holds only entry 1, chunk 1 holds
entries 2 and 3. -/
theorem addfiles_chunk_boundaries_witness :
    (∀ e ∈ ([⟨"d1", EKind.dir 6291456, 0, FailMode.ok⟩,
             ⟨"d2", EKind.dir 6291456, 0, FailMode.ok⟩,
             ⟨"d3", EKind.dir 1048576, 0, FailMode.ok⟩] : List FsEntry),
        e.fail = FailMode.ok) ∧
    ((addfiles 4 10485760 (fun _ => true) (-1)
        [⟨"d1", EKind.dir 6291456, 0, FailMode.ok⟩,
         ⟨"d2", EKind.dir 6291456, 0, FailMode.ok⟩,
         ⟨"d3", EKind.dir 1048576, 0, FailMode.ok⟩]).1.commits.map
          (fun p => p.2.map recordQuad) =
      (specChunks 10485760
        [⟨"d1", EKind.dir 6291456, 0, FailMode.ok⟩,
         ⟨"d2", EKind.dir 6291456, 0, FailMode.ok⟩,
         ⟨"d3", EKind.dir 1048576, 0, FailMode.ok⟩]).map
          (fun g => g.map (entryQuad 4))) ∧
    (specChunks 10485760
        [⟨"d1", EKind.dir 6291456, 0, FailMode.ok⟩,
         ⟨"d2", EKind.dir 6291456, 0, FailMode.ok⟩,
         ⟨"d3", EKind.dir 1048576, 0, FailMode.ok⟩]).map
      (fun g => g.map (fun e => e.name)) = [["d1"], ["d2", "d3"]] ∧
    (addfiles 4 10485760 (fun _ => true) (-1)
        [⟨"d1", EKind.dir 6291456, 0, FailMode.ok⟩,
         ⟨"d2", EKind.dir 6291456, 0, FailMode.ok⟩,
         ⟨"d3", EKind.dir 1048576, 0, FailMode.ok⟩]).1.commits.map
      (fun p => p.2.map (fun r => r.name)) = [["d1"], ["d2", "d3"]] :=
  ⟨by decide,
   (addfiles_chunk_boundaries 4 10485760 (fun _ => true) (-1)
     [⟨"d1", EKind.dir 6291456, 0, FailMode.ok⟩,
      ⟨"d2", EKind.dir 6291456, 0, FailMode.ok⟩,
      ⟨"d3", EKind.dir 1048576, 0, FailMode.ok⟩] (by decide) (fun t => rfl)).1,
   by decide, by decide⟩

/-! ## Failure isolation -/

theorem stepEntry_fail (bs : Nat) (op : OpenTar) (st : Sess) (e : FsEntry)
    (h : entryFails bs e = true) :
    stepEntry bs op st e =
      ({ op with tar := (addfile bs op.tar e).2 },
       { st with failures := st.failures ++ [e.name] }) := by
  have hfst : (addfile bs op.tar e).1 = none := by
    rw [addfile_fst, h]
    simp
  unfold stepEntry
  rcases haf : addfile bs op.tar e with ⟨r, t'⟩
  rw [haf] at hfst
  simp only at hfst
  subst hfst
  simp

theorem stepEntry_succ (bs : Nat) (op : OpenTar) (st : Sess) (e : FsEntry)
    (h : entryFails bs e = false) :
    stepEntry bs op st e =
      ({ op with
          tar := (addfile bs op.tar e).2,
          archived := op.archived ++
            [mkRecord op.tname e (op.tar.offset, e.recSize, e.mtime, entryMd5 bs e)],
          tarsize := op.tarsize + e.statSize }, st) := by
  have hfst : (addfile bs op.tar e).1 =
      some (op.tar.offset, e.recSize, e.mtime, entryMd5 bs e) := by
    rw [addfile_fst, h]
    simp
  unfold stepEntry
  rcases haf : addfile bs op.tar e with ⟨r, t'⟩
  rw [haf] at hfst
  simp only at hfst
  subst hfst
  simp

/-- With all transfers succeeding, the loop always completes; the failure
list collects exactly the names of the entries whose `addfile` raised, in
order; the names of all committed records are exactly those of the
pending records plus the entries that archived successfully, in order;
and at least one chunk is written whenever there is at least one entry. -/
theorem addfilesGo_failures (bs maxsize : Nat) (tOk : String → Bool)
    (htOk : ∀ t, tOk t = true) :
    ∀ (files : List FsEntry) (itar : Int) (ot : Option OpenTar) (st : Sess),
      (addfilesGo bs maxsize tOk files itar ot st).2 = true ∧
      (addfilesGo bs maxsize tOk files itar ot st).1.failures =
        st.failures ++
          (files.filter (fun e => entryFails bs e)).map (fun e => e.name) ∧
      (files ≠ [] →
        ((addfilesGo bs maxsize tOk files itar ot st).1.commits.map
            (fun p => p.2.map (fun r => r.name))).flatten =
          ((st.commits.map (fun p => p.2.map (fun r => r.name))).flatten ++
            (otCur ot).map (fun r => r.name)) ++
            (files.filter (fun e => !entryFails bs e)).map (fun e => e.name)) ∧
      (files ≠ [] →
        st.cache.length <
          (addfilesGo bs maxsize tOk files itar ot st).1.cache.length) := by
  intro files
  induction files with
  | nil =>
      intro itar ot st
      refine ⟨rfl, by simp [addfilesGo], by simp, by simp⟩
  | cons e rest ih =>
      intro itar ot st
      have main : ∀ (it2 : Int) (op0 : OpenTar),
          ((if closeAfter maxsize (stepEntry bs op0 st e).1.tarsize rest then if (closeChunk tOk (stepEntry bs op0 st e).1 (stepEntry bs op0 st e).2).2 then addfilesGo bs maxsize tOk rest it2 none (closeChunk tOk (stepEntry bs op0 st e).1 (stepEntry bs op0 st e).2).1 else ((closeChunk tOk (stepEntry bs op0 st e).1 (stepEntry bs op0 st e).2).1, false) else addfilesGo bs maxsize tOk rest it2 (some (stepEntry bs op0 st e).1) (stepEntry bs op0 st e).2)).2 = true ∧
          ((if closeAfter maxsize (stepEntry bs op0 st e).1.tarsize rest then if (closeChunk tOk (stepEntry bs op0 st e).1 (stepEntry bs op0 st e).2).2 then addfilesGo bs maxsize tOk rest it2 none (closeChunk tOk (stepEntry bs op0 st e).1 (stepEntry bs op0 st e).2).1 else ((closeChunk tOk (stepEntry bs op0 st e).1 (stepEntry bs op0 st e).2).1, false) else addfilesGo bs maxsize tOk rest it2 (some (stepEntry bs op0 st e).1) (stepEntry bs op0 st e).2)).1.failures = st.failures ++ (((e :: rest).filter (fun x => entryFails bs x)).map (fun x => x.name)) ∧
          ((((if closeAfter maxsize (stepEntry bs op0 st e).1.tarsize rest then if (closeChunk tOk (stepEntry bs op0 st e).1 (stepEntry bs op0 st e).2).2 then addfilesGo bs maxsize tOk rest it2 none (closeChunk tOk (stepEntry bs op0 st e).1 (stepEntry bs op0 st e).2).1 else ((closeChunk tOk (stepEntry bs op0 st e).1 (stepEntry bs op0 st e).2).1, false) else addfilesGo bs maxsize tOk rest it2 (some (stepEntry bs op0 st e).1) (stepEntry bs op0 st e).2)).1.commits.map (fun p => p.2.map (fun r => r.name))).flatten = ((st.commits.map (fun p => p.2.map (fun r => r.name))).flatten ++ op0.archived.map (fun r => r.name)) ++ (((e :: rest).filter (fun x => !entryFails bs x)).map (fun x => x.name))) ∧
          st.cache.length < ((if closeAfter maxsize (stepEntry bs op0 st e).1.tarsize rest then if (closeChunk tOk (stepEntry bs op0 st e).1 (stepEntry bs op0 st e).2).2 then addfilesGo bs maxsize tOk rest it2 none (closeChunk tOk (stepEntry bs op0 st e).1 (stepEntry bs op0 st e).2).1 else ((closeChunk tOk (stepEntry bs op0 st e).1 (stepEntry bs op0 st e).2).1, false) else addfilesGo bs maxsize tOk rest it2 (some (stepEntry bs op0 st e).1) (stepEntry bs op0 st e).2)).1.cache.length := by
        intro it2 op0
        have htk : tOk (stepEntry bs op0 st e).1.tname = true := htOk _
        -- effect of the current entry, by whether its addfile raises
        have hq : ((stepEntry bs op0 st e).1.archived =
              op0.archived ∧
              (stepEntry bs op0 st e).2.failures = st.failures ++ [e.name] ∧
              entryFails bs e = true) ∨
            ((stepEntry bs op0 st e).1.archived =
              op0.archived ++
                [mkRecord op0.tname e
                  (op0.tar.offset, e.recSize, e.mtime, entryMd5 bs e)] ∧
              (stepEntry bs op0 st e).2.failures = st.failures ∧
              entryFails bs e = false) := by
          by_cases hfe : entryFails bs e = true
          · left
            rw [stepEntry_fail bs op0 st e hfe]
            exact ⟨rfl, rfl, hfe⟩
          · right
            have hfe' : entryFails bs e = false := by simpa using hfe
            rw [stepEntry_succ bs op0 st e hfe']
            exact ⟨rfl, rfl, hfe'⟩
        have hcm : (stepEntry bs op0 st e).2.commits = st.commits :=
          stepEntry_snd_commits bs op0 st e
        have hca : (stepEntry bs op0 st e).2.cache = st.cache :=
          stepEntry_snd_cache bs op0 st e
        by_cases hcl : closeAfter maxsize (stepEntry bs op0 st e).1.tarsize rest = true
        · rw [if_pos hcl, closeChunk_true tOk _ _ htk]
          simp only [if_true]
          obtain ⟨hA, hB, hC, hD⟩ := ih it2 none
            { commits := (stepEntry bs op0 st e).2.commits ++
                [((stepEntry bs op0 st e).1.tname, (stepEntry bs op0 st e).1.archived)],
              cache := (stepEntry bs op0 st e).2.cache ++
                [((stepEntry bs op0 st e).1.tname,
                  tarClose (stepEntry bs op0 st e).1.tar.data)],
              transferred := (stepEntry bs op0 st e).2.transferred ++
                [(stepEntry bs op0 st e).1.tname],
              failures := (stepEntry bs op0 st e).2.failures }
          refine ⟨hA, ?_, ?_, ?_⟩
          · rw [hB]
            rcases hq with ⟨_, hf, hfe⟩ | ⟨_, hf, hfe⟩ <;>
              simp [hf, hfe, List.filter_cons]
          · cases rest with
            | nil =>
                simp only [addfilesGo]
                rcases hq with ⟨ha, _, hfe⟩ | ⟨ha, _, hfe⟩ <;>
                  simp [ha, hcm, hfe, List.filter_cons, mkRecord]
            | cons r2 rest2 =>
                rw [hC (by simp)]
                rcases hq with ⟨ha, _, hfe⟩ | ⟨ha, _, hfe⟩ <;>
                  simp [ha, hcm, hfe, List.filter_cons, mkRecord, otCur]
          · cases rest with
            | nil =>
                simp only [addfilesGo]
                simp [hca]
            | cons r2 rest2 =>
                have h1 := hD (by simp)
                simp [hca] at h1 ⊢
                omega
        · rw [if_neg hcl]
          have hrne : rest ≠ [] := by
            intro hr
            subst hr
            simp [closeAfter] at hcl
          obtain ⟨hA, hB, hC, hD⟩ :=
            ih it2 (some (stepEntry bs op0 st e).1) (stepEntry bs op0 st e).2
          refine ⟨hA, ?_, ?_, ?_⟩
          · rw [hB]
            rcases hq with ⟨_, hf, hfe⟩ | ⟨_, hf, hfe⟩ <;>
              simp [hf, hfe, List.filter_cons]
          · rw [hC hrne]
            rcases hq with ⟨ha, _, hfe⟩ | ⟨ha, _, hfe⟩ <;>
              simp [ha, hcm, hfe, List.filter_cons, mkRecord, otCur]
          · have := hD hrne
            rw [hca] at this
            exact this
      cases ot with
      | none =>
          simp only [addfilesGo]
          have := main (itar + 1) (newOpen (itar + 1))
          simpa [newOpen, otCur] using this
      | some op =>
          simp only [addfilesGo]
          have := main itar op
          simpa [otCur] using this

/-! ## Claim C3 -/

set_option maxRecDepth 40000 in
/-- **C3 counterexample**: a permission-style failure (`open` raises after
the header block was already emitted) does contribute bytes to the chunk.
With the failing entry "x" present, the chunk bytes differ from the run
without it, and the surviving entry "b" is recorded at offset 512 instead
of 0 — even though "x" is duly reported as a per-file failure and the run
completes.  So a failed entry does not always contribute zero bytes. -/
theorem addfiles_failed_entry_writes_bytes :
    (addfiles 4 100 (fun _ => true) (-1)
        [⟨"x", EKind.file [9, 9, 9], 4, FailMode.openFail⟩,
         ⟨"b", EKind.file [7], 6, FailMode.ok⟩]).1.failures = ["x"] ∧
    (addfiles 4 100 (fun _ => true) (-1)
        [⟨"x", EKind.file [9, 9, 9], 4, FailMode.openFail⟩,
         ⟨"b", EKind.file [7], 6, FailMode.ok⟩]).2 = true ∧
    (addfiles 4 100 (fun _ => true) (-1)
        [⟨"x", EKind.file [9, 9, 9], 4, FailMode.openFail⟩,
         ⟨"b", EKind.file [7], 6, FailMode.ok⟩]).1.commits.map
      (fun p => p.2.map (fun r => (r.name, r.offset))) = [[("b", 512)]] ∧
    (addfiles 4 100 (fun _ => true) (-1)
        [⟨"b", EKind.file [7], 6, FailMode.ok⟩]).1.commits.map
      (fun p => p.2.map (fun r => (r.name, r.offset))) = [[("b", 0)]] ∧
    (addfiles 4 100 (fun _ => true) (-1)
        [⟨"x", EKind.file [9, 9, 9], 4, FailMode.openFail⟩,
         ⟨"b", EKind.file [7], 6, FailMode.ok⟩]).1.cache.map Prod.snd ≠
      (addfiles 4 100 (fun _ => true) (-1)
        [⟨"b", EKind.file [7], 6, FailMode.ok⟩]).1.cache.map Prod.snd :=
  ⟨by decide, by decide, by decide, by decide, by decide⟩

/-- **C3 (amended)**: if exactly one entry fails, the run never aborts
(transfers succeeding), the failure list holds exactly that entry's path,
the committed records are exactly those of the other entries in order (the
failed entry gets no FileRecord), and every chunk is finalized with its
trailer; moreover a vanished-file failure (`gettarinfo` raises before
anything is written) contributes no bytes to the chunk — but, per the
counterexample, a failure after the header is emitted does contribute
bytes. -/
theorem addfiles_single_failure_isolated (bs maxsize : Nat)
    (tOk : String → Bool) (itar : Int) (a b : List FsEntry) (f : FsEntry)
    (hf : entryFails bs f = true)
    (hok : ∀ e ∈ a ++ b, e.fail = FailMode.ok)
    (htOk : ∀ t, tOk t = true) :
    (addfiles bs maxsize tOk itar (a ++ f :: b)).2 = true ∧
    (addfiles bs maxsize tOk itar (a ++ f :: b)).1.failures = [f.name] ∧
    ((addfiles bs maxsize tOk itar (a ++ f :: b)).1.commits.map
        (fun p => p.2.map (fun r => r.name))).flatten =
      (a ++ b).map (fun e => e.name) ∧
    (∀ c ∈ (addfiles bs maxsize tOk itar (a ++ f :: b)).1.cache,
      ∃ d, c.2 = tarClose d) ∧
    (∀ t : TarSt, f.fail = FailMode.statFail → (addfile bs t f).2 = t) := by
  simp only [addfiles]
  have hoka : ∀ e ∈ a, entryFails bs e = false := fun e he =>
    entryFails_of_ok bs e (hok e (List.mem_append_left b he))
  have hokb : ∀ e ∈ b, entryFails bs e = false := fun e he =>
    entryFails_of_ok bs e (hok e (List.mem_append_right a he))
  obtain ⟨hA, hB, hC, hD⟩ := addfilesGo_failures bs maxsize tOk htOk
    (a ++ f :: b) itar none ⟨[], [], [], []⟩
  have hfin := addfilesGo_final bs maxsize tOk (a ++ f :: b) itar none
    ⟨[], [], [], []⟩ ⟨rfl, rfl, by simp, by simp, by simp⟩ (fun op hop => by cases hop)
  refine ⟨hA, ?_, ?_, hfin.2.2.1, ?_⟩
  · rw [hB]
    have h1 : a.filter (fun e => entryFails bs e) = [] := by
      rw [List.filter_eq_nil_iff]
      intro e he
      simp [hoka e he]
    have h2 : b.filter (fun e => entryFails bs e) = [] := by
      rw [List.filter_eq_nil_iff]
      intro e he
      simp [hokb e he]
    simp [List.filter_append, h1, h2, List.filter_cons, hf]
  · rw [hC (by simp)]
    have h1 : a.filter (fun e => !entryFails bs e) = a := by
      rw [List.filter_eq_self]
      intro e he
      simp [hoka e he]
    have h2 : b.filter (fun e => !entryFails bs e) = b := by
      rw [List.filter_eq_self]
      intro e he
      simp [hokb e he]
    simp [List.filter_append, h1, h2, List.filter_cons, hf, otCur]
  · intro t hsf
    simp [addfile, hsf]

/-- Witness for C3 (amended): a permission-failing entry "x" between two
good entries; exactly one failure, records exactly for "a" and "b". -/
theorem addfiles_single_failure_isolated_witness :
    entryFails 4 ⟨"x", EKind.file [9, 9, 9], 4, FailMode.openFail⟩ = true ∧
    (addfiles 4 100 (fun _ => true) (-1)
        [⟨"a", EKind.file [1, 2, 3], 5, FailMode.ok⟩,
         ⟨"x", EKind.file [9, 9, 9], 4, FailMode.openFail⟩,
         ⟨"b", EKind.file [7], 6, FailMode.ok⟩]).1.failures = ["x"] ∧
    ((addfiles 4 100 (fun _ => true) (-1)
        [⟨"a", EKind.file [1, 2, 3], 5, FailMode.ok⟩,
         ⟨"x", EKind.file [9, 9, 9], 4, FailMode.openFail⟩,
         ⟨"b", EKind.file [7], 6, FailMode.ok⟩]).1.commits.map
        (fun p => p.2.map (fun r => r.name))).flatten = ["a", "b"] := by
  have h := addfiles_single_failure_isolated 4 100 (fun _ => true) (-1)
    [⟨"a", EKind.file [1, 2, 3], 5, FailMode.ok⟩]
    [⟨"b", EKind.file [7], 6, FailMode.ok⟩]
    ⟨"x", EKind.file [9, 9, 9], 4, FailMode.openFail⟩
    (by decide) (by decide) (fun t => rfl)
  exact ⟨by decide, h.2.1, by simpa using h.2.2.1⟩

/-! ## Claim C9 -/

/-- **C9**: if every entry assigned to the chunks fails during archiving,
the chunks are still closed, still transferred, and their transactions —
containing zero FileRecords — are still committed: the session uploads
containers holding no successfully archived entries rather than skipping
them. -/
theorem addfiles_all_failed_chunk_committed (bs maxsize : Nat)
    (tOk : String → Bool) (itar : Int) (files : List FsEntry)
    (hne : files ≠ [])
    (hfail : ∀ e ∈ files, entryFails bs e = true)
    (htOk : ∀ t, tOk t = true) :
    (addfiles bs maxsize tOk itar files).2 = true ∧
    (addfiles bs maxsize tOk itar files).1.failures =
      files.map (fun e => e.name) ∧
    (addfiles bs maxsize tOk itar files).1.cache ≠ [] ∧
    (∀ c ∈ (addfiles bs maxsize tOk itar files).1.cache, ∃ d, c.2 = tarClose d) ∧
    (addfiles bs maxsize tOk itar files).1.cache.map Prod.fst =
      (addfiles bs maxsize tOk itar files).1.transferred ∧
    (addfiles bs maxsize tOk itar files).1.commits.map Prod.fst =
      (addfiles bs maxsize tOk itar files).1.transferred ∧
    (∀ p ∈ (addfiles bs maxsize tOk itar files).1.commits, p.2 = []) := by
  simp only [addfiles]
  obtain ⟨hA, hB, hC, hD⟩ := addfilesGo_failures bs maxsize tOk htOk
    files itar none ⟨[], [], [], []⟩
  have hfin := addfilesGo_final bs maxsize tOk files itar none
    ⟨[], [], [], []⟩ ⟨rfl, rfl, by simp, by simp, by simp⟩ (fun op hop => by cases hop)
  have hfilter : files.filter (fun e => entryFails bs e) = files := by
    rw [List.filter_eq_self]
    intro e he
    simp [hfail e he]
  have hfilter2 : files.filter (fun e => !entryFails bs e) = [] := by
    rw [List.filter_eq_nil_iff]
    intro e he
    simp [hfail e he]
  refine ⟨hA, ?_, ?_, hfin.2.2.1, hfin.2.2.2.2.1 hA, hfin.1, ?_⟩
  · rw [hB, hfilter]
    simp
  · have := hD hne
    intro hnil
    rw [hnil] at this
    simp at this
  · intro p hp
    have hflat := hC hne
    rw [hfilter2] at hflat
    have hflat2 : ((addfilesGo bs maxsize tOk files itar none
        ⟨[], [], [], []⟩).1.commits.map
          (fun q => q.2.map (fun r => r.name))).flatten = [] := by
      simpa [otCur] using hflat
    have hmem : p.2.map (fun r => r.name) ∈
        ((addfilesGo bs maxsize tOk files itar none
          ⟨[], [], [], []⟩).1.commits.map
            (fun q => q.2.map (fun r => r.name))) :=
      List.mem_map_of_mem _ hp
    have hall := List.flatten_eq_nil_iff.mp hflat2
    have hthis := hall _ hmem
    simpa using hthis

/-- Witness for C9: a single vanished-file entry still produces one
closed, transferred chunk with an empty committed transaction. -/
theorem addfiles_all_failed_chunk_committed_witness :
    (∀ e ∈ ([⟨"v", EKind.file [1, 2], 3, FailMode.statFail⟩] : List FsEntry),
      entryFails 4 e = true) ∧
    (addfiles 4 100 (fun _ => true) (-1)
        [⟨"v", EKind.file [1, 2], 3, FailMode.statFail⟩]).1.failures = ["v"] ∧
    (∀ p ∈ (addfiles 4 100 (fun _ => true) (-1)
        [⟨"v", EKind.file [1, 2], 3, FailMode.statFail⟩]).1.commits, p.2 = []) ∧
    (addfiles 4 100 (fun _ => true) (-1)
        [⟨"v", EKind.file [1, 2], 3, FailMode.statFail⟩]).1.commits.map
      Prod.fst = ["000000.tar"] ∧
    (addfiles 4 100 (fun _ => true) (-1)
        [⟨"v", EKind.file [1, 2], 3, FailMode.statFail⟩]).1.transferred =
      ["000000.tar"] := by
  have h := addfiles_all_failed_chunk_committed 4 100 (fun _ => true) (-1)
    [⟨"v", EKind.file [1, 2], 3, FailMode.statFail⟩]
    (by decide) (by decide) (fun t => rfl)
  exact ⟨by decide, by simpa using h.2.1, h.2.2.2.2.2.2, by decide, by decide⟩

/-! ## Digest correctness (claim C4) -/

theorem recordsOk_append (d s : List Byte) (recs : List FileRecord)
    (h : RecordsOk d recs) : RecordsOk (d ++ s) recs := by
  intro r hr dg hm
  obtain ⟨h1, h2, h3⟩ := h r hr dg hm
  refine ⟨h1, by simp only [List.length_append]; omega, ?_⟩
  unfold recordContent at h3 ⊢
  have hb : r.offset + BLOCKSIZE ≤ d.length := by omega
  rw [List.drop_append_of_le_length hb,
    List.take_append_of_le_length (by simp only [List.length_drop]; omega)]
  exact h3

theorem tarClose_eq_append (d : List Byte) : ∃ s, tarClose d = d ++ s := by
  refine ⟨List.replicate (2 * BLOCKSIZE) 0 ++
    List.replicate ((RECORDSIZE -
      (d.length + 2 * BLOCKSIZE) % RECORDSIZE) % RECORDSIZE) 0, ?_⟩
  unfold tarClose
  simp [List.append_assoc, List.length_append]

theorem recordsOk_tarClose (d : List Byte) (recs : List FileRecord)
    (h : RecordsOk d recs) : RecordsOk (tarClose d) recs := by
  obtain ⟨s, hs⟩ := tarClose_eq_append d
  rw [hs]
  exact recordsOk_append d s recs h

theorem entryWrites_file (bs : Nat) (hbs : 0 < bs) (nm : String) (c : List Byte)
    (mt : Nat) (fl : FailMode)
    (hsucc : entryFails bs ⟨nm, EKind.file c, mt, fl⟩ = false) :
    entryWrites bs ⟨nm, EKind.file c, mt, fl⟩ =
      mkHeader ++ c ++ List.replicate
        (if c.length % BLOCKSIZE > 0 then BLOCKSIZE - c.length % BLOCKSIZE else 0)
        0 := by
  cases fl with
  | ok =>
      simp [entryWrites, addfile, completeFile, foldl_append_flatten,
        chunksOf_flatten bs hbs]
  | statFail => simp [entryFails, addfile] at hsucc
  | openFail => simp [entryFails, addfile] at hsucc
  | readFail j =>
      by_cases hj : j * bs ≤ c.length
      · simp [entryFails, addfile, hj] at hsucc
      · simp [entryWrites, addfile, hj, completeFile, foldl_append_flatten,
          chunksOf_flatten bs hbs]

theorem entryMd5_file (bs : Nat) (hbs : 0 < bs) (nm : String) (c : List Byte)
    (mt : Nat) (fl : FailMode) :
    entryMd5 bs ⟨nm, EKind.file c, mt, fl⟩ = some c := by
  simp [entryMd5, md5Hexdigest, md5_fed_eq bs hbs]

theorem mkRecord_recordsOk (bs : Nat) (hbs : 0 < bs) (t : TarSt) (e : FsEntry)
    (tname : String)
    (hsync : t.data.length = t.offset)
    (hsucc : entryFails bs e = false) :
    RecordsOk (addfile bs t e).2.data
      [mkRecord tname e (t.offset, e.recSize, e.mtime, entryMd5 bs e)] := by
  intro r hr dg hm
  simp only [List.mem_singleton] at hr
  subst hr
  obtain ⟨nm, kind, mt, fl⟩ := e
  cases kind with
  | dir s => simp [mkRecord, entryMd5] at hm
  | file c =>
      have hmd := entryMd5_file bs hbs nm c mt fl
      have hdg : dg = c := by
        simp only [mkRecord, hmd] at hm
        injection hm with hm2
        exact hm2.symm
      rw [hdg]
      rw [addfile_data, entryWrites_file bs hbs nm c mt fl hsucc]
      have hhl : mkHeader.length = BLOCKSIZE := by simp [mkHeader]
      have hrs : (mkRecord tname ⟨nm, EKind.file c, mt, fl⟩
          (t.offset, FsEntry.recSize ⟨nm, EKind.file c, mt, fl⟩, mt,
            entryMd5 bs ⟨nm, EKind.file c, mt, fl⟩)).size = c.length := by
        simp [mkRecord, FsEntry.recSize]
      have hro : (mkRecord tname ⟨nm, EKind.file c, mt, fl⟩
          (t.offset, FsEntry.recSize ⟨nm, EKind.file c, mt, fl⟩, mt,
            entryMd5 bs ⟨nm, EKind.file c, mt, fl⟩)).offset = t.offset := by
        simp [mkRecord]
      refine ⟨hrs, ?_, ?_⟩
      · rw [hro, hrs]
        simp only [List.length_append, List.length_replicate, hhl]
        omega
      · unfold recordContent
        rw [hro, hrs]
        have hsplit : t.data ++ (mkHeader ++ c ++ List.replicate
            (if c.length % BLOCKSIZE > 0 then BLOCKSIZE - c.length % BLOCKSIZE
             else 0) 0) =
            (t.data ++ mkHeader) ++ (c ++ List.replicate
            (if c.length % BLOCKSIZE > 0 then BLOCKSIZE - c.length % BLOCKSIZE
             else 0) 0) := by
          simp [List.append_assoc]
        rw [hsplit]
        have hlen2 : t.offset + BLOCKSIZE = (t.data ++ mkHeader).length := by
          simp [List.length_append, hhl, hsync]
        rw [hlen2, List.drop_left]
        exact List.take_left c _

theorem stepEntry_tarOk (bs : Nat) (hbs : 0 < bs) (op : OpenTar) (st : Sess)
    (e : FsEntry) (hd : entryDesyncs bs e = false)
    (hsync : op.tar.data.length = op.tar.offset)
    (hrec : RecordsOk op.tar.data op.archived) :
    (stepEntry bs op st e).1.tar.data.length =
      (stepEntry bs op st e).1.tar.offset ∧
    RecordsOk (stepEntry bs op st e).1.tar.data
      (stepEntry bs op st e).1.archived := by
  have hwa := (entryDesyncs_iff bs e).mp hd
  have hsync' : (addfile bs op.tar e).2.data.length =
      (addfile bs op.tar e).2.offset := by
    rw [addfile_data, addfile_offset, List.length_append, hsync, hwa]
  have hrec' : RecordsOk (addfile bs op.tar e).2.data op.archived := by
    rw [addfile_data]
    exact recordsOk_append _ _ _ hrec
  by_cases hfe : entryFails bs e = true
  · rw [stepEntry_fail bs op st e hfe]
    exact ⟨hsync', hrec'⟩
  · have hfe' : entryFails bs e = false := by simpa using hfe
    rw [stepEntry_succ bs op st e hfe']
    refine ⟨hsync', ?_⟩
    intro r hr dg hm
    simp only [List.mem_append, List.mem_singleton] at hr
    rcases hr with hr | hr
    · exact hrec' r hr dg hm
    · exact mkRecord_recordsOk bs hbs op.tar e op.tname hsync hfe'
        r (by simpa using hr) dg hm

theorem zip_append_right_of_length_eq (l1 : List (String × List FileRecord))
    (l2 : List (String × List Byte)) (x : String × List Byte)
    (h : l1.length = l2.length) :
    l1.zip (l2 ++ [x]) = l1.zip l2 := by
  have h2 : (l1 ++ []).zip (l2 ++ [x]) = l1.zip l2 ++ [].zip [x] :=
    List.zip_append h
  simpa using h2

/-- In runs where no entry desynchronizes the tar offset from the written
bytes, every committed record's digest matches the bytes of its chunk at
the recorded location. -/
theorem addfilesGo_recordsOk (bs maxsize : Nat) (tOk : String → Bool)
    (hbs : 0 < bs) :
    ∀ (files : List FsEntry) (itar : Int) (ot : Option OpenTar) (st : Sess),
      (∀ e ∈ files, entryDesyncs bs e = false) →
      st.commits.length = st.cache.length →
      (∀ q ∈ st.commits.zip st.cache, RecordsOk q.2.2 q.1.2) →
      (∀ op, ot = some op →
        op.tar.data.length = op.tar.offset ∧
        RecordsOk op.tar.data op.archived) →
      ∀ q ∈ (addfilesGo bs maxsize tOk files itar ot st).1.commits.zip
          (addfilesGo bs maxsize tOk files itar ot st).1.cache,
        RecordsOk q.2.2 q.1.2 := by
  intro files
  induction files with
  | nil =>
      intro itar ot st hds hlen hzip hot
      simpa [addfilesGo] using hzip
  | cons e rest ih =>
      intro itar ot st hds hlen hzip hot
      have hde : entryDesyncs bs e = false := hds e (by simp)
      have hdrest : ∀ x ∈ rest, entryDesyncs bs x = false :=
        fun x hx => hds x (by simp [hx])
      have main : ∀ (it2 : Int) (op0 : OpenTar),
          op0.tar.data.length = op0.tar.offset →
          RecordsOk op0.tar.data op0.archived →
          ∀ q ∈ ((if closeAfter maxsize (stepEntry bs op0 st e).1.tarsize rest then
              if (closeChunk tOk (stepEntry bs op0 st e).1 (stepEntry bs op0 st e).2).2 then
                addfilesGo bs maxsize tOk rest it2 none
                  (closeChunk tOk (stepEntry bs op0 st e).1 (stepEntry bs op0 st e).2).1
              else
                ((closeChunk tOk (stepEntry bs op0 st e).1 (stepEntry bs op0 st e).2).1,
                  false)
            else
              addfilesGo bs maxsize tOk rest it2 (some (stepEntry bs op0 st e).1)
                (stepEntry bs op0 st e).2)).1.commits.zip
            ((if closeAfter maxsize (stepEntry bs op0 st e).1.tarsize rest then
              if (closeChunk tOk (stepEntry bs op0 st e).1 (stepEntry bs op0 st e).2).2 then
                addfilesGo bs maxsize tOk rest it2 none
                  (closeChunk tOk (stepEntry bs op0 st e).1 (stepEntry bs op0 st e).2).1
              else
                ((closeChunk tOk (stepEntry bs op0 st e).1 (stepEntry bs op0 st e).2).1,
                  false)
            else
              addfilesGo bs maxsize tOk rest it2 (some (stepEntry bs op0 st e).1)
                (stepEntry bs op0 st e).2)).1.cache,
            RecordsOk q.2.2 q.1.2 := by
        intro it2 op0 hops hopr
        obtain ⟨hq1, hq2⟩ := stepEntry_tarOk bs hbs op0 st e hde hops hopr
        have hcm := stepEntry_snd_commits bs op0 st e
        have hca := stepEntry_snd_cache bs op0 st e
        by_cases hcl : closeAfter maxsize (stepEntry bs op0 st e).1.tarsize rest = true
        · rw [if_pos hcl]
          by_cases htk : tOk (stepEntry bs op0 st e).1.tname = true
          · rw [closeChunk_true tOk _ _ htk]
            simp only [if_true]
            apply ih it2 none _ hdrest
            · simp [hcm, hca, hlen]
            · intro q hq
              rw [hcm, hca] at hq
              rw [List.zip_append (by simpa using hlen)] at hq
              simp only [List.mem_append] at hq
              rcases hq with hq | hq
              · exact hzip q hq
              · simp only [List.zip_cons_cons, List.zip_nil_right,
                  List.mem_singleton] at hq
                subst hq
                exact recordsOk_tarClose _ _ hq2
            · intro op hop
              cases hop
          · have htk' : tOk (stepEntry bs op0 st e).1.tname = false := by
              simpa using htk
            rw [closeChunk_false tOk _ _ htk']
            simp only [Bool.false_eq_true, if_false]
            intro q hq
            simp only [hcm, hca] at hq
            rw [zip_append_right_of_length_eq _ _ _ hlen] at hq
            exact hzip q hq
        · rw [if_neg hcl]
          apply ih it2 (some (stepEntry bs op0 st e).1) _ hdrest
          · rw [hcm, hca]
            exact hlen
          · intro q hq
            rw [hcm, hca] at hq
            exact hzip q hq
          · intro op hop
            cases hop
            exact ⟨hq1, hq2⟩
      cases ot with
      | none =>
          simp only [addfilesGo]
          exact main (itar + 1) (newOpen (itar + 1)) (by simp [newOpen])
            (by intro r hr; simp [newOpen] at hr)
      | some op =>
          simp only [addfilesGo]
          exact main itar op (hot op rfl).1 (hot op rfl).2

/-! ## Claim C4 -/

set_option maxRecDepth 40000 in
/-- **C4 counterexample**: after a mid-stream read fault on an earlier
entry, `tar.offset` lags behind the bytes actually written (the manual
`tar.offset +=` update is skipped while the header and one content block
were written), so the next entry's recorded offset points into the middle
of the orphaned data: entry "b" is recorded at offset 512 with digest
`[5]`, but the chunk bytes at `(offset + header, size)` are `[0]`. -/
theorem addfiles_offset_desync_after_read_fault :
    ((addfiles 4 100 (fun _ => true) (-1)
        [⟨"r", EKind.file [1, 2, 3, 4, 5, 6, 7, 8], 4, FailMode.readFail 1⟩,
         ⟨"b", EKind.file [5], 6, FailMode.ok⟩]).1.commits.map
      (fun p => p.2)).flatten.map (fun r => (r.name, r.offset, r.size, r.md5)) =
      [("b", 512, 1, some [5])] ∧
    (addfiles 4 100 (fun _ => true) (-1)
        [⟨"r", EKind.file [1, 2, 3, 4, 5, 6, 7, 8], 4, FailMode.readFail 1⟩,
         ⟨"b", EKind.file [5], 6, FailMode.ok⟩]).1.cache.map
      (fun c => recordContent c.2 ⟨"b", 1, 6, some [5], "000000.tar", 512⟩) =
      [[0]] :=
  ⟨by decide, by decide⟩

/-- **C4 (amended)**: provided no entry suffers a mid-stream read fault
(one that writes content bytes after the header without the offset
update — `entryDesyncs`), every successfully archived regular file's
stored digest equals the digest of exactly the bytes recorded for it at
`(chunk, offset, size)`: the recorded offset is the chunk position before
the entry's header, and the chunk bytes at `(offset + header, size)` are
exactly the bytes that were streamed into the digest in fixed-size
blocks. -/
theorem addfiles_digest_matches_slice (bs maxsize : Nat) (tOk : String → Bool)
    (itar : Int) (files : List FsEntry)
    (hbs : 0 < bs)
    (hsync : ∀ e ∈ files, entryDesyncs bs e = false) :
    ∀ q ∈ (addfiles bs maxsize tOk itar files).1.commits.zip
        (addfiles bs maxsize tOk itar files).1.cache,
      ∀ r ∈ q.1.2, ∀ dg, r.md5 = some dg →
        r.size = dg.length ∧ recordContent q.2.2 r = dg := by
  intro q hq r hr dg hm
  have h := addfilesGo_recordsOk bs maxsize tOk hbs files itar none
    ⟨[], [], [], []⟩ hsync rfl (by simp) (fun op hop => by cases hop)
    q hq r hr dg hm
  exact ⟨h.1, h.2.2⟩

set_option maxRecDepth 40000 in
/-- Witness for C4 at a concrete run: one 3-byte file in one chunk; its
digest is `[1, 2, 3]` and so are the chunk bytes at offset 512. -/
theorem addfiles_digest_matches_slice_witness :
    (0 < 4 ∧
     ∀ e ∈ ([⟨"a", EKind.file [1, 2, 3], 5, FailMode.ok⟩] : List FsEntry),
       entryDesyncs 4 e = false) ∧
    (∀ q ∈ (addfiles 4 100 (fun _ => true) (-1)
        [⟨"a", EKind.file [1, 2, 3], 5, FailMode.ok⟩]).1.commits.zip
        (addfiles 4 100 (fun _ => true) (-1)
          [⟨"a", EKind.file [1, 2, 3], 5, FailMode.ok⟩]).1.cache,
      ∀ r ∈ q.1.2, ∀ dg, r.md5 = some dg →
        r.size = dg.length ∧ recordContent q.2.2 r = dg) ∧
    (addfiles 4 100 (fun _ => true) (-1)
        [⟨"a", EKind.file [1, 2, 3], 5, FailMode.ok⟩]).1.cache.map
      (fun c => recordContent c.2 ⟨"a", 3, 5, some [1, 2, 3], "000000.tar", 0⟩) =
      [[1, 2, 3]] :=
  ⟨⟨by decide, by decide⟩,
   addfiles_digest_matches_slice 4 100 (fun _ => true) (-1)
     [⟨"a", EKind.file [1, 2, 3], 5, FailMode.ok⟩] (by decide) (by decide),
   by decide⟩

/-! ## Exclusion filter claims (C6, C8, C10) -/

theorem excludeFiles_eq_filter (ex : String) (files : List String)
    (pats : List String)
    (h : (splitPatterns ex).mapM rewritePattern = some pats) :
    excludeFiles ex files =
      some (files.filter (fun f => !(pats.any (fun pa => fnmatchB f pa)))) := by
  unfold excludeFiles
  rw [h]
  dsimp only
  congr 1
  apply List.filter_congr
  intro f hf
  have hc : ((files.filter (fun g => pats.any (fun pa => fnmatchB g pa))).contains f) =
      pats.any (fun pa => fnmatchB f pa) := by
    by_cases hm : pats.any (fun pa => fnmatchB f pa) = true
    · rw [hm]
      exact List.elem_iff.mpr (List.mem_filter.mpr ⟨hf, hm⟩)
    · have hm' : pats.any (fun pa => fnmatchB f pa) = false := by simpa using hm
      rw [hm']
      rw [Bool.eq_false_iff]
      intro hcon
      have hmem := List.elem_iff.mp hcon
      have := (List.mem_filter.mp hmem).2
      rw [hm'] at this
      cases this
  rw [hc]

/-- **C6**: `excludeFiles` rewrites each pattern ending in a path
separator to also match everything beneath it (`*` appended), removes
exactly the candidates matching any pattern, and preserves the order of
the remaining candidates (the result is the order-preserving filter of
the candidate list); in particular pattern `"logs/"` excludes
`"logs/a.txt"` and `"logs/sub/b.txt"` but not `"logs_backup/a.txt"`. -/
theorem excludeFiles_filters_matching (ex : String) (files : List String)
    (pats : List String)
    (h : (splitPatterns ex).mapM rewritePattern = some pats) :
    excludeFiles ex files =
      some (files.filter (fun f => !(pats.any (fun pa => fnmatchB f pa)))) ∧
    rewritePattern "logs/" = some "logs/*" ∧
    excludeFiles "logs/" ["logs/a.txt", "logs/sub/b.txt", "logs_backup/a.txt"] =
      some ["logs_backup/a.txt"] ∧
    fnmatchB "logs/a.txt" "logs/*" = true ∧
    fnmatchB "logs/sub/b.txt" "logs/*" = true ∧
    fnmatchB "logs_backup/a.txt" "logs/*" = false :=
  ⟨excludeFiles_eq_filter ex files pats h, by decide, by decide, by decide,
    by decide, by decide⟩

/-- Witness for C6 at the spec's scenario. -/
theorem excludeFiles_filters_matching_witness :
    ((splitPatterns "logs/").mapM rewritePattern = some ["logs/*"]) ∧
    excludeFiles "logs/" ["logs/a.txt", "logs/sub/b.txt", "logs_backup/a.txt"] =
      some ((["logs/a.txt", "logs/sub/b.txt", "logs_backup/a.txt"]).filter
        (fun f => !((["logs/*"] : List String).any (fun pa => fnmatchB f pa)))) :=
  ⟨by decide,
   (excludeFiles_filters_matching "logs/"
     ["logs/a.txt", "logs/sub/b.txt", "logs_backup/a.txt"] ["logs/*"]
     (by decide)).1⟩

/-- **C8 counterexample**: the exclusion filter does have an error
condition — an empty exclude string splits into the one-element pattern
list `[""]`, and the trailing-separator rewrite indexes the last character
of the empty pattern, raising `IndexError` instead of passing the
candidates through. -/
theorem excludeFiles_empty_pattern_raises :
    excludeFiles "" ["a.txt"] = none ∧
    splitPatterns "" = [""] ∧
    rewritePattern "" = none :=
  ⟨by decide, by decide, by decide⟩

theorem mapM_rewrite_some (l : List String) (h : ∀ p ∈ l, p ≠ "") :
    ∃ pats, l.mapM rewritePattern = some pats := by
  induction l with
  | nil => exact ⟨[], rfl⟩
  | cons p rest ih =>
      obtain ⟨pats, hp⟩ := ih (fun q hq => h q (by simp [hq]))
      have hpne : p ≠ "" := h p (by simp)
      have hdata : p.data ≠ [] := by
        intro hd
        apply hpne
        cases p with
        | mk d =>
            dsimp only at hd
            subst hd
            rfl
      obtain ⟨c, cs, hcc⟩ : ∃ c cs, p.data = c :: cs := by
        cases hd : p.data with
        | nil => exact absurd hd hdata
        | cons c cs => exact ⟨c, cs, rfl⟩
      refine ⟨(if (c :: cs).getLast (by simp) = '/' then p ++ "*" else p) :: pats, ?_⟩
      rw [List.mapM_cons]
      have hr : rewritePattern p =
          some (if (c :: cs).getLast (by simp) = '/' then p ++ "*" else p) := by
        unfold rewritePattern
        rw [hcc, List.getLast?_eq_getLast]
      rw [hr, hp]
      rfl

/-- **C8 (amended)**: the comma-split of the exclude string is never the
empty list, so "empty pattern list" can only mean an exclude string whose
split contains an empty pattern — and there the filter raises an
`IndexError` (see the counterexample).  For every exclude string whose
comma-split contains only nonempty patterns, the filter raises no error,
and when no candidate matches any pattern the candidate list passes
through unchanged. -/
theorem excludeFiles_nonempty_patterns_no_error (ex : String)
    (files : List String)
    (h : ∀ p ∈ splitPatterns ex, p ≠ "") :
    (∃ l, excludeFiles ex files = some l) ∧
    (∀ pats, (splitPatterns ex).mapM rewritePattern = some pats →
      (∀ f ∈ files, ∀ pa ∈ pats, fnmatchB f pa = false) →
      excludeFiles ex files = some files) := by
  obtain ⟨pats, hp⟩ := mapM_rewrite_some (splitPatterns ex) h
  constructor
  · exact ⟨_, excludeFiles_eq_filter ex files pats hp⟩
  · intro pats2 hp2 hnom
    rw [hp] at hp2
    injection hp2 with hp2
    subst hp2
    rw [excludeFiles_eq_filter ex files pats hp]
    congr 1
    rw [List.filter_eq_self]
    intro f hf
    have : pats.any (fun pa => fnmatchB f pa) = false := by
      rw [List.any_eq_false]
      intro pa hpa
      simp [hnom f hf pa hpa]
    simp [this]

/-- Witness for C8 (amended): a nonempty pattern matching nothing lets
every candidate through without an error. -/
theorem excludeFiles_nonempty_patterns_no_error_witness :
    (∀ p ∈ splitPatterns "nomatch", p ≠ "") ∧
    (∃ l, excludeFiles "nomatch" ["a.txt"] = some l) ∧
    excludeFiles "nomatch" ["a.txt"] = some ["a.txt"] :=
  ⟨by decide,
   (excludeFiles_nonempty_patterns_no_error "nomatch" ["a.txt"] (by decide)).1,
   by decide⟩

/-- **C10**: `fnmatch`'s `*` matches any characters including the path
separator, so a pattern not ending in `/` can exclude paths inside
subdirectories: `"logs*"` excludes both `"logs_backup/a.txt"` and the
nested `"logs/sub/b.txt"`, not only top-level names. -/
theorem excludeFiles_star_crosses_separator :
    fnmatchB "logs_backup/a.txt" "logs*" = true ∧
    fnmatchB "logs/sub/b.txt" "logs*" = true ∧
    excludeFiles "logs*" ["logs_backup/a.txt", "logs/sub/b.txt", "other.txt"] =
      some ["other.txt"] :=
  ⟨by decide, by decide, by decide⟩

/-! ## Determinism of the enumeration (claim C5) -/

theorem str_eq_of_data_eq (s t : String) (h : s.data = t.data) : s = t := by
  cases s
  cases t
  exact congrArg String.mk (by simpa using h)

theorem charListLt_irrefl : ∀ a : List Char, charListLt a a = false
  | [] => rfl
  | c :: cs => by
      unfold charListLt
      rw [if_neg (lt_irrefl c), if_neg (lt_irrefl c)]
      exact charListLt_irrefl cs

theorem charListLt_asymm : ∀ a b : List Char,
    charListLt a b = true → charListLt b a = false := by
  intro a
  induction a with
  | nil =>
      intro b h
      cases b with
      | nil => cases h
      | cons bb bs => rfl
  | cons aa as ih =>
      intro b h
      cases b with
      | nil => cases h
      | cons bb bs =>
          unfold charListLt at h ⊢
          by_cases hab : aa < bb
          · rw [if_neg (lt_asymm hab), if_pos hab]
          · rw [if_neg hab] at h
            by_cases hba : bb < aa
            · rw [if_pos hba] at h
              cases h
            · rw [if_neg hba] at h
              rw [if_neg hba, if_neg hab]
              exact ih bs h

theorem charListLt_trans : ∀ a b c : List Char,
    charListLt a b = true → charListLt b c = true → charListLt a c = true := by
  intro a
  induction a with
  | nil =>
      intro b c h1 h2
      cases b with
      | nil => cases h1
      | cons bb bs =>
          cases c with
          | nil => cases h2
          | cons cc cs => rfl
  | cons aa as ih =>
      intro b c h1 h2
      cases b with
      | nil => cases h1
      | cons bb bs =>
          cases c with
          | nil => cases h2
          | cons cc cs =>
              unfold charListLt at h1 h2 ⊢
              by_cases hab : aa < bb
              · by_cases hbc : bb < cc
                · rw [if_pos (lt_trans hab hbc)]
                · rw [if_neg hbc] at h2
                  by_cases hcb : cc < bb
                  · rw [if_pos hcb] at h2
                    cases h2
                  · have hbceq : bb = cc :=
                      le_antisymm (le_of_not_lt hcb) (le_of_not_lt hbc)
                    rw [if_pos (hbceq ▸ hab)]
              · rw [if_neg hab] at h1
                by_cases hba : bb < aa
                · rw [if_pos hba] at h1
                  cases h1
                · rw [if_neg hba] at h1
                  have habeq : aa = bb :=
                    le_antisymm (le_of_not_lt hba) (le_of_not_lt hab)
                  subst habeq
                  by_cases hbc : aa < cc
                  · rw [if_pos hbc]
                  · rw [if_neg hbc] at h2
                    by_cases hcb : cc < aa
                    · rw [if_pos hcb] at h2
                      cases h2
                    · rw [if_neg hcb] at h2
                      have hbceq : aa = cc :=
                        le_antisymm (le_of_not_lt hcb) (le_of_not_lt hbc)
                      subst hbceq
                      rw [if_neg (lt_irrefl aa), if_neg (lt_irrefl aa)]
                      exact ih bs cs h1 h2

theorem charListLt_connex : ∀ a b : List Char,
    charListLt a b = false → charListLt b a = false → a = b := by
  intro a
  induction a with
  | nil =>
      intro b h1 _
      cases b with
      | nil => rfl
      | cons bb bs => cases h1
  | cons aa as ih =>
      intro b h1 h2
      cases b with
      | nil => cases h2
      | cons bb bs =>
          unfold charListLt at h1 h2
          by_cases hab : aa < bb
          · rw [if_pos hab] at h1
            cases h1
          · rw [if_neg hab] at h1
            by_cases hba : bb < aa
            · rw [if_pos hba] at h2
              cases h2
            · rw [if_neg hba] at h1
              rw [if_neg hba, if_neg hab] at h2
              have habeq : aa = bb :=
                le_antisymm (le_of_not_lt hba) (le_of_not_lt hab)
              rw [habeq, ih bs h1 h2]

instance : IsTotal (String × String) pairLe := by
  constructor
  intro x y
  unfold pairLe
  by_cases h1 : charListLt x.1.data y.1.data = true
  · left
    simp [h1]
  · by_cases h2 : charListLt y.1.data x.1.data = true
    · right
      simp [h2]
    · have he1 : x.1 = y.1 := str_eq_of_data_eq _ _
        (charListLt_connex _ _ (by simpa using h1) (by simpa using h2))
      by_cases h3 : charListLt x.2.data y.2.data = true
      · left
        simp [h3, he1]
      · by_cases h4 : charListLt y.2.data x.2.data = true
        · right
          simp [h4, he1]
        · have he2 : x.2 = y.2 := str_eq_of_data_eq _ _
            (charListLt_connex _ _ (by simpa using h3) (by simpa using h4))
          left
          simp [he1, he2]

instance : IsTrans (String × String) pairLe := by
  constructor
  intro x y z hxy hyz
  unfold pairLe at *
  simp only [Bool.or_eq_true, Bool.and_eq_true, beq_iff_eq] at hxy hyz ⊢
  rcases hxy with hxy | ⟨hxy1, hxy2⟩
  · rcases hyz with hyz | ⟨hyz1, hyz2⟩
    · exact Or.inl (charListLt_trans _ _ _ hxy hyz)
    · left
      rw [← hyz1]
      exact hxy
  · rcases hyz with hyz | ⟨hyz1, hyz2⟩
    · left
      rw [hxy1]
      exact hyz
    · right
      refine ⟨hxy1.trans hyz1, ?_⟩
      rcases hxy2 with hxy2 | hxy2
      · rcases hyz2 with hyz2 | hyz2
        · exact Or.inl (charListLt_trans _ _ _ hxy2 hyz2)
        · left
          rw [← hyz2]
          exact hxy2
      · rcases hyz2 with hyz2 | hyz2
        · left
          rw [hxy2]
          exact hyz2
        · right
          exact hxy2.trans hyz2

instance : IsAntisymm (String × String) pairLe := by
  constructor
  intro x y hxy hyx
  unfold pairLe at hxy hyx
  simp only [Bool.or_eq_true, Bool.and_eq_true, beq_iff_eq] at hxy hyx
  rcases hxy with hxy | ⟨hxy1, hxy2⟩
  · rcases hyx with hyx | ⟨hyx1, hyx2⟩
    · have h := charListLt_asymm _ _ hxy
      rw [hyx] at h
      cases h
    · rw [hyx1] at hxy
      rw [charListLt_irrefl] at hxy
      cases hxy
  · rcases hyx with hyx | ⟨hyx1, hyx2⟩
    · rw [hxy1] at hyx
      rw [charListLt_irrefl] at hyx
      cases hyx
    · rcases hxy2 with hxy2 | hxy2
      · rcases hyx2 with hyx2 | hyx2
        · have h := charListLt_asymm _ _ hxy2
          rw [hyx2] at h
          cases h
        · rw [hyx2] at hxy2
          rw [charListLt_irrefl] at hxy2
          cases hxy2
      · exact Prod.ext hxy1 hxy2

theorem sortFiles_perm_eq (l1 l2 : List (String × String)) (h : l1.Perm l2) :
    sortFiles l1 = sortFiles l2 := by
  have hs1 := List.sorted_insertionSort pairLe l1
  have hs2 := List.sorted_insertionSort pairLe l2
  exact List.eq_of_perm_of_sorted
    ((List.perm_insertionSort pairLe l1).trans
      (h.trans (List.perm_insertionSort pairLe l2).symm)) hs1 hs2

/-! ## Claim C5 -/

/-- **C5**: for an unchanged source tree and identical settings, the file
list — and hence everything downstream of it (chunk contents, offsets,
records) — is a deterministic function of the tree: whatever order the
directory walk yields its entries in, the `(directory, filename)` sort
produces the same list, the same normalized relative paths, and the same
`addfiles` result (identical chunks, offsets and index). -/
theorem create_enumeration_deterministic (cacheName : String)
    (w1 w2 : List (String × List String × List String))
    (bs maxsize : Nat) (tOk : String → Bool) (itar : Int)
    (fs : String → FsEntry)
    (hperm : (gatherFiles w1).Perm (gatherFiles w2)) :
    createFileList cacheName w1 = createFileList cacheName w2 ∧
    addfiles bs maxsize tOk itar ((createFileList cacheName w1).map fs) =
      addfiles bs maxsize tOk itar ((createFileList cacheName w2).map fs) := by
  have h1 : sortFiles (gatherFiles w1) = sortFiles (gatherFiles w2) :=
    sortFiles_perm_eq _ _ hperm
  have h2 : createFileList cacheName w1 = createFileList cacheName w2 := by
    unfold createFileList
    rw [h1]
  exact ⟨h2, by rw [h2]⟩

/-- Witness for C5: two walks over the same tree in different orders give
the same sorted, normalized file list. -/
theorem create_enumeration_deterministic_witness :
    ((gatherFiles [(".", ["d1"], ["b.txt", "a.txt"]), ("./d1", [], [])]).Perm
      (gatherFiles [("./d1", [], []), (".", ["d1"], ["a.txt", "b.txt"])])) ∧
    createFileList "zstash" [(".", ["d1"], ["b.txt", "a.txt"]), ("./d1", [], [])] =
      createFileList "zstash" [("./d1", [], []), (".", ["d1"], ["a.txt", "b.txt"])] ∧
    createFileList "zstash" [(".", ["d1"], ["b.txt", "a.txt"]), ("./d1", [], [])] =
      ["a.txt", "b.txt", "d1"] :=
  ⟨by decide,
   (create_enumeration_deterministic "zstash"
     [(".", ["d1"], ["b.txt", "a.txt"]), ("./d1", [], [])]
     [("./d1", [], []), (".", ["d1"], ["a.txt", "b.txt"])]
     4 100 (fun _ => true) (-1) (fun p => ⟨p, EKind.dir 0, 0, FailMode.ok⟩)
     (by decide)).1,
   by decide⟩

/-! ## Claim C7 -/

theorem gatherFiles_all_dirs (walk : List (String × List String × List String))
    (h : ∀ t ∈ walk, t.2.2 = []) :
    gatherFiles walk =
      (walk.filter (fun t => decide (t.2.1 = []))).map (fun t => (t.1, "")) := by
  induction walk with
  | nil => rfl
  | cons t rest ih =>
      have ht : t.2.2 = [] := h t (by simp)
      have ihr := ih (fun x hx => h x (by simp [hx]))
      unfold gatherFiles at ihr ⊢
      rw [List.flatMap_cons, List.filter_cons]
      by_cases hd : t.2.1 = []
      · simp [ht, hd, ihr]
      · simp [ht, hd, ihr]

/-- Flattened record data of an all-success run: one record per entry, in
order, with the per-entry name/size/mtime/md5. -/
theorem addfiles_ok_flat_quads (bs maxsize : Nat) (tOk : String → Bool)
    (itar : Int) (files : List FsEntry)
    (hok : ∀ e ∈ files, e.fail = FailMode.ok)
    (htOk : ∀ t, tOk t = true) :
    ((addfiles bs maxsize tOk itar files).1.commits.map
        (fun p => p.2)).flatten.map recordQuad = files.map (entryQuad bs) := by
  have h := addfilesGo_groups bs maxsize tOk htOk files itar none
    ⟨[], [], [], []⟩ [] hok (by simp [otCur])
  simp only [List.map_nil, List.nil_append] at h
  unfold addfiles
  rw [List.map_flatten, List.map_map]
  rw [show ((List.map recordQuad) ∘ (fun p : String × List FileRecord => p.2)) =
    (fun p : String × List FileRecord => List.map recordQuad p.2) from rfl]
  rw [h, ← List.map_flatten]
  rw [show (specChunksGo maxsize [] (otSize none) files).flatten = files from
    specChunks_flatten maxsize files]

/-- **C7**: a walk over a subtree containing only directories produces one
placeholder FileRecord per empty directory — each with size 0 and a null
digest — the archiving path raises no error for such entries, and (when
no walked directory is the local cache directory) the number of archived
paths equals the number of empty directories. -/
theorem create_empty_dirs_placeholders (bs maxsize : Nat)
    (tOk : String → Bool) (cacheName : String)
    (walk : List (String × List String × List String))
    (fs : String → FsEntry)
    (hw : ∀ t ∈ walk, t.2.2 = [])
    (hfs : ∀ p ∈ createFileList cacheName walk,
      ∃ sz mt, fs p = ⟨p, EKind.dir sz, mt, FailMode.ok⟩)
    (htOk : ∀ t, tOk t = true) :
    (addfiles bs maxsize tOk (-1)
      ((createFileList cacheName walk).map fs)).2 = true ∧
    (addfiles bs maxsize tOk (-1)
      ((createFileList cacheName walk).map fs)).1.failures = [] ∧
    ((addfiles bs maxsize tOk (-1)
        ((createFileList cacheName walk).map fs)).1.commits.map
        (fun p => p.2)).flatten.map (fun r => (r.name, r.size, r.md5)) =
      (createFileList cacheName walk).map (fun p => (p, 0, none)) ∧
    ((∀ t ∈ walk, t.1 ≠ pathJoin "." cacheName) →
      (createFileList cacheName walk).length =
        (walk.filter (fun t => decide (t.2.1 = []))).length) := by
  have hok : ∀ e ∈ (createFileList cacheName walk).map fs,
      e.fail = FailMode.ok := by
    intro e he
    obtain ⟨p, hp, hpe⟩ := List.mem_map.mp he
    obtain ⟨sz, mt, heq⟩ := hfs p hp
    rw [← hpe, heq]
  obtain ⟨hA, hB, _, _⟩ := addfilesGo_failures bs maxsize tOk htOk
    ((createFileList cacheName walk).map fs) (-1) none ⟨[], [], [], []⟩
  refine ⟨hA, ?_, ?_, ?_⟩
  · rw [show (addfiles bs maxsize tOk (-1)
        ((createFileList cacheName walk).map fs)).1.failures =
      (addfilesGo bs maxsize tOk ((createFileList cacheName walk).map fs)
        (-1) none ⟨[], [], [], []⟩).1.failures from rfl]
    rw [hB]
    have hfe : ((createFileList cacheName walk).map fs).filter
        (fun e => entryFails bs e) = [] := by
      rw [List.filter_eq_nil_iff]
      intro e he
      simp [entryFails_of_ok bs e (hok e he)]
    rw [hfe]
    simp
  · have hq := addfiles_ok_flat_quads bs maxsize tOk (-1)
      ((createFileList cacheName walk).map fs) hok htOk
    have hproj := congrArg
      (List.map (fun q : String × Nat × Nat × Option (List Byte) =>
        (q.1, q.2.1, q.2.2.2))) hq
    rw [List.map_map, List.map_map] at hproj
    rw [show (fun r => (r.name, r.size, r.md5)) =
      ((fun q : String × Nat × Nat × Option (List Byte) =>
        (q.1, q.2.1, q.2.2.2)) ∘ recordQuad) from rfl]
    rw [hproj, List.map_map]
    apply List.map_congr_left
    intro p hp
    obtain ⟨sz, mt, heq⟩ := hfs p hp
    simp [heq, entryQuad, FsEntry.recSize, entryMd5]
  · intro hcache
    unfold createFileList
    rw [List.length_map]
    have hall : ∀ x ∈ sortFiles (gatherFiles walk),
        (decide (x.1 ≠ pathJoin "." cacheName)) = true := by
      intro x hx
      have hx2 : x ∈ gatherFiles walk := (List.mem_insertionSort pairLe).mp hx
      rw [gatherFiles_all_dirs walk hw] at hx2
      obtain ⟨t, hts, hte⟩ := List.mem_map.mp hx2
      have htw : t ∈ walk := List.mem_of_mem_filter hts
      have := hcache t htw
      simp [← hte, this]
    rw [List.filter_eq_self.mpr hall]
    rw [show (sortFiles (gatherFiles walk)).length =
      (gatherFiles walk).length from List.length_insertionSort pairLe _]
    rw [gatherFiles_all_dirs walk hw, List.length_map]

/-- Witness for C7: two empty directories under the root. -/
theorem create_empty_dirs_placeholders_witness :
    (∀ t ∈ ([(".", ["d1", "d2"], []), ("./d1", [], []), ("./d2", [], [])] :
        List (String × List String × List String)), t.2.2 = []) ∧
    ((addfiles 4 100 (fun _ => true) (-1)
        ((createFileList "zstash"
          [(".", ["d1", "d2"], []), ("./d1", [], []), ("./d2", [], [])]).map
          (fun p => ⟨p, EKind.dir 6, 7, FailMode.ok⟩))).1.commits.map
        (fun p => p.2)).flatten.map (fun r => (r.name, r.size, r.md5)) =
      [("d1", 0, none), ("d2", 0, none)] ∧
    createFileList "zstash"
      [(".", ["d1", "d2"], []), ("./d1", [], []), ("./d2", [], [])] =
      ["d1", "d2"] := by
  have h := create_empty_dirs_placeholders 4 100 (fun _ => true) "zstash"
    [(".", ["d1", "d2"], []), ("./d1", [], []), ("./d2", [], [])]
    (fun p => ⟨p, EKind.dir 6, 7, FailMode.ok⟩)
    (by decide) (fun p _ => ⟨6, 7, rfl⟩) (fun t => rfl)
  refine ⟨by decide, ?_, by decide⟩
  rw [h.2.2.1]
  decide
